import Mathlib

/-!
Verification development for the video-player repository.

The Python modules `scanner/ordering.py`, `scanner/directory.py`,
`scanner/model.py` and `server.py` are shallowly embedded below.  Pure
string/regex logic is translated to executable functions on `List Char`;
the fixed, anchored regular expressions of the source are translated to
the deterministic matching procedures they denote.  Python string
operations (`lower`, `strip`, `islower`, `upper`) are modelled on the
ASCII range, which covers every character class the regexes inspect.
Filesystem trees are modelled by an explicit inductive type, and external
collaborators (ffprobe, ffmpeg) are parameters of the embedded functions.
-/

/- ───────────────────────── basic string helpers ───────────────────────── -/

/-- ASCII model of Python `str.lower` on one character. -/
def charLower (c : Char) : Char :=
  if 'A' ≤ c ∧ c ≤ 'Z' then Char.ofNat (c.toNat + 32) else c

/-- ASCII model of Python `str.upper` on one character. -/
def charUpper (c : Char) : Char :=
  if 'a' ≤ c ∧ c ≤ 'z' then Char.ofNat (c.toNat - 32) else c

/-- ASCII lowercase test, modelling Python `str.islower` on one character. -/
def isPyLower (c : Char) : Bool := 'a' ≤ c && c ≤ 'z'

/-- Python whitespace class (`\s`, `str.strip()` default), ASCII range. -/
def isPySpace (c : Char) : Bool :=
  c = ' ' || c = '\t' || c = '\n' || c = '\r' || c = '\x0b' || c = '\x0c'

def lowerL (l : List Char) : List Char := l.map charLower

def lowerStr (s : String) : String := ⟨lowerL s.data⟩

/-- Strip characters satisfying `p` from both ends (Python `str.strip`). -/
def stripBoth (p : Char → Bool) (l : List Char) : List Char :=
  ((l.dropWhile p).reverse.dropWhile p).reverse

/-- Value of a decimal digit string, as computed by Python `int`. -/
def natOfDigits (l : List Char) : Nat :=
  l.foldl (fun a c => a * 10 + (c.toNat - 48)) 0

/-- Code-point lexicographic comparison of character lists, the order Python
uses for `str` comparison. -/
def clLt : List Char → List Char → Bool
  | _, [] => false
  | [], _ :: _ => true
  | a :: as, b :: bs =>
    if a.toNat < b.toNat then true
    else if b.toNat < a.toNat then false
    else clLt as bs

/-- Python string `<`. -/
def strLtB (a b : String) : Bool := clLt a.data b.data

/-- Whether `pre` is an initial segment of `l`. -/
def listIsPfx [BEq α] : List α → List α → Bool
  | [], _ => true
  | _ :: _, [] => false
  | a :: as, b :: bs => a == b && listIsPfx as bs

/-- Whether the string `pre` is an initial segment of `s`
(Python `str.startswith`). -/
def strIsPfx (pre s : String) : Bool := listIsPfx pre.data s.data

/-- Whether `needle` occurs as a contiguous substring of `hay`
(Python `in` on strings). -/
def listContainsSub [BEq α] (hay needle : List α) : Bool :=
  match hay with
  | [] => needle.isEmpty
  | _ :: t => listIsPfx needle hay || listContainsSub t needle

def strContainsSub (hay needle : String) : Bool :=
  listContainsSub hay.data needle.data

/-- Splitting point of `takeWhile`/`dropWhile`, Python regex greedy `p*`. -/
def spanP (p : Char → Bool) (l : List Char) : List Char × List Char :=
  (l.takeWhile p, l.dropWhile p)

/- ───────────────────── stable sorting (Python `sorted`) ───────────────────── -/

/-- Insert `x` before the first element not strictly below it; together with
`stableSortBy` this realizes a stable sort, which is extensionally the
function Python `sorted` computes for a strict-weak order `lt`. -/
def insertSorted (lt : α → α → Bool) (x : α) : List α → List α
  | [] => [x]
  | y :: ys => if lt y x then y :: insertSorted lt x ys else x :: y :: ys

def stableSortBy (lt : α → α → Bool) : List α → List α
  | [] => []
  | x :: xs => insertSorted lt x (stableSortBy lt xs)

/- ───────────────────── ordering engine (scanner/ordering.py) ───────────────────── -/

/-- Separator class `[\s_\-\.\)\]]` of the first start pattern. -/
def isSep1 (c : Char) : Bool :=
  isPySpace c || c = '_' || c = '-' || c = '.' || c = ')' || c = ']'

/-- Separator class `[\s_\-\.]` of the bracketed and parenthesized patterns. -/
def isSep2 (c : Char) : Bool := isPySpace c || c = '_' || c = '-' || c = '.'

/-- Separator class `[\s_\-]` of the trailing-number pattern. -/
def isSep3 (c : Char) : Bool := isPySpace c || c = '_' || c = '-'

def isAsciiLetter (c : Char) : Bool :=
  ('a' ≤ c && c ≤ 'z') || ('A' ≤ c && c ≤ 'Z')

/-- Pattern `^(\d+)[\s_\-\.\)\]]+(.*)$`: leading digits, one or more
separators, remainder.  Returns the parsed number and group 2. -/
def startPat1 (l : List Char) : Option (Nat × List Char) :=
  match spanP Char.isDigit l with
  | ([], _) => none
  | (ds, r) =>
    match spanP isSep1 r with
    | ([], _) => none
    | (_, rest) => some (natOfDigits ds, rest)

/-- Pattern `^\[(\d+)\][\s_\-\.]*(.*)$`. -/
def startPat2 : List Char → Option (Nat × List Char)
  | '[' :: r =>
    (match spanP Char.isDigit r with
     | ([], _) => none
     | (ds, ']' :: r2) => some (natOfDigits ds, r2.dropWhile isSep2)
     | (_, _) => none)
  | _ => none

/-- Pattern `^\((\d+)\)[\s_\-\.]*(.*)$`. -/
def startPat3 : List Char → Option (Nat × List Char)
  | '(' :: r =>
    (match spanP Char.isDigit r with
     | ([], _) => none
     | (ds, ')' :: r2) => some (natOfDigits ds, r2.dropWhile isSep2)
     | (_, _) => none)
  | _ => none

/-- Pattern `^(\d+)([a-zA-Z].*)$`. -/
def startPat4 (l : List Char) : Option (Nat × List Char) :=
  match spanP Char.isDigit l with
  | ([], _) => none
  | (ds, r) =>
    match r with
    | c :: _ => if isAsciiLetter c then some (natOfDigits ds, r) else none
    | [] => none

/-- Pattern `^(\d+)()$`: a bare number. -/
def startPat5 (l : List Char) : Option (Nat × List Char) :=
  match spanP Char.isDigit l with
  | ([], _) => none
  | (ds, []) => some (natOfDigits ds, [])
  | (_, _ :: _) => none

/-- The `start_patterns` cascade of `extract_sort_key`, first match wins. -/
def matchStartNumber (l : List Char) : Option (Nat × List Char) :=
  match startPat1 l with
  | some x => some x
  | none =>
  match startPat2 l with
  | some x => some x
  | none =>
  match startPat3 l with
  | some x => some x
  | none =>
  match startPat4 l with
  | some x => some x
  | none => startPat5 l

/-- Whether `l` starts with one or more whitespace characters followed by a
digit, the condition for the lazy `.+?` of `^(.+?)\s+(\d+)(.*)$` to stop. -/
def digitAfterSpaces (l : List Char) : Bool :=
  match spanP isPySpace l with
  | ([], _) => false
  | (_, c :: _) => c.isDigit
  | (_, []) => false

/-- Matching procedure of `^(.+?)\s+(\d+)(.*)$`: the lazy prefix stops at the
first position (at least 1) from which whitespace then a digit follow.
Returns (group 1, parsed number, group 3). -/
def wordNumberAux (acc : List Char) : List Char → Option (List Char × Nat × List Char)
  | [] => none
  | c :: rest =>
    if !acc.isEmpty && digitAfterSpaces (c :: rest) then
      match spanP isPySpace (c :: rest) with
      | (_, r2) =>
        match spanP Char.isDigit r2 with
        | (ds, r3) => some (acc.reverse, natOfDigits ds, r3)
    else wordNumberAux (c :: acc) rest

def wordNumber (l : List Char) : Option (List Char × Nat × List Char) :=
  wordNumberAux [] l

/-- Whether `l` is `\d+(\.[^.]+)?$`; returns the number and group 3
(the optional extension, empty when absent). -/
def endTailMatch (l : List Char) : Option (Nat × List Char) :=
  match spanP Char.isDigit l with
  | ([], _) => none
  | (ds, []) => some (natOfDigits ds, [])
  | (ds, '.' :: t) =>
    if !t.isEmpty && !(t.contains '.') then some (natOfDigits ds, '.' :: t)
    else none
  | (_, _ :: _) => none

/-- Matching procedure of `^(.+?)[\s_\-](\d+)(\.[^.]+)?$`: the lazy prefix
stops at the first position (at least 1) holding a separator after which the
whole remainder is a number with an optional extension. -/
def endNumberAux (acc : List Char) : List Char → Option (List Char × Nat × List Char)
  | [] => none
  | c :: rest =>
    if !acc.isEmpty && isSep3 c then
      match endTailMatch rest with
      | some (n, ext) => some (acc.reverse, n, ext)
      | none => endNumberAux (c :: acc) rest
    else endNumberAux (c :: acc) rest

def endNumber (l : List Char) : Option (List Char × Nat × List Char) :=
  endNumberAux [] l

/-- Embedding of `extract_sort_key` from `scanner/ordering.py`. -/
def extract_sort_key (name : String) : String × Nat × String :=
  let l := name.data
  match l with
  | '-' :: _ => ("~~", 999998, lowerStr name)
  | _ =>
    match matchStartNumber l with
    | some (num, g2) =>
      let rest := stripBoth isPySpace g2
      let rest := if rest.isEmpty then l else rest
      ("l__numbered", num, ⟨lowerL rest⟩)
    | none =>
    match wordNumber l with
    | some (pre, num, suf) =>
      (⟨lowerL (stripBoth isPySpace pre)⟩, num, ⟨lowerL (stripBoth isPySpace suf)⟩)
    | none =>
    match endNumber l with
    | some (pre, num, ext) =>
      (⟨lowerL (stripBoth isPySpace pre)⟩, num, ⟨lowerL ext⟩)
    | none => ("~~~", 999999, lowerStr name)

/-- Comparison of sort-key tuples, the order Python uses on
`(str, int, str)` triples. -/
def keyLt (a b : String × Nat × String) : Bool :=
  strLtB a.1 b.1 ||
    (a.1 == b.1 &&
      (decide (a.2.1 < b.2.1) || (a.2.1 == b.2.1 && strLtB a.2.2 b.2.2)))

/-- Embedding of `sort_items` from `scanner/ordering.py` (the unused
`ctime_func` parameter is dropped): a stable sort by
`extract_sort_key` of the extracted name. -/
def sort_items (key : α → String) (items : List α) : List α :=
  stableSortBy (fun a b => keyLt (extract_sort_key (key a)) (extract_sort_key (key b))) items

/- ───────────────────── clean titles (get_clean_title) ───────────────────── -/

/-- Substitution `re.sub(r'\.[^.]+$', '', name)`: remove the final extension
when the last dot is followed by at least one character. -/
def stripExtension (l : List Char) : List Char :=
  match l.reverse.takeWhile (· != '.'), l.reverse.dropWhile (· != '.') with
  | tail, '.' :: pre => if tail.isEmpty then l else pre.reverse
  | _, _ => l

/-- Match of `^(\d+)[\s_\-\.\)\]]+` at the start of `l`: the remainder after
the match if it matches, `none` otherwise. -/
def leadNumBare? (l : List Char) : Option (List Char) :=
  match spanP Char.isDigit l with
  | ([], _) => none
  | (_, r) =>
    match spanP isSep1 r with
    | ([], _) => none
    | (_, rest) => some rest

/-- Match of `^\[(\d+)\][\s_\-\.]*` at the start of `l`. -/
def leadNumBracket? : List Char → Option (List Char)
  | '[' :: r =>
    (match spanP Char.isDigit r with
     | ([], _) => none
     | (_, ']' :: r2) => some (r2.dropWhile isSep2)
     | (_, _) => none)
  | _ => none

/-- Match of `^\((\d+)\)[\s_\-\.]*` at the start of `l`. -/
def leadNumParen? : List Char → Option (List Char)
  | '(' :: r =>
    (match spanP Char.isDigit r with
     | ([], _) => none
     | (_, ')' :: r2) => some (r2.dropWhile isSep2)
     | (_, _) => none)
  | _ => none

/-- Substitution `re.sub(r'^(\d+)[\s_\-\.\)\]]+', '', name)` (the anchored
pattern matches at most once). -/
def cleanPat1 (l : List Char) : List Char := (leadNumBare? l).getD l

/-- Substitution `re.sub(r'^\[(\d+)\][\s_\-\.]*', '', name)`. -/
def cleanPat2 (l : List Char) : List Char := (leadNumBracket? l).getD l

/-- Substitution `re.sub(r'^\((\d+)\)[\s_\-\.]*', '', name)`. -/
def cleanPat3 (l : List Char) : List Char := (leadNumParen? l).getD l

/-- Separator characters trimmed by `name.strip(' _-.')`. -/
def isTrimSep (c : Char) : Bool := c = ' ' || c = '_' || c = '-' || c = '.'

/-- Capitalization step of `get_clean_title`: upper-case the first character
when it is lowercase. -/
def capitalizeIfLower : List Char → List Char
  | c :: rest => if isPyLower c then charUpper c :: rest else c :: rest
  | [] => []

/-- Embedding of `get_clean_title` from `scanner/ordering.py`: the loop
`for pattern in patterns: name = re.sub(pattern, '', name)` is the fold
below. -/
def get_clean_title (filename : String) : String :=
  let name := stripExtension filename.data
  let name := [cleanPat1, cleanPat2, cleanPat3].foldl (fun n p => p n) name
  let name := stripBoth isTrimSep name
  let name := capitalizeIfLower name
  if name.isEmpty then filename else ⟨name⟩

/-- Modelled from the claim wording of C8, for comparison with the source
function: after stripping the extension, strip exactly one leading-number
pattern — the first of {bare/separated number, bracketed number,
parenthesized number} that matches — then trim, capitalize and fall back
to the original name when empty. -/
def cleanTitleOnePattern (filename : String) : String :=
  let n0 := stripExtension filename.data
  let n1 :=
    match leadNumBare? n0 with
    | some r => r
    | none =>
      match leadNumBracket? n0 with
      | some r => r
      | none =>
        match leadNumParen? n0 with
        | some r => r
        | none => n0
  let n2 := stripBoth isTrimSep n1
  let n3 := capitalizeIfLower n2
  if n3.isEmpty then filename else ⟨n3⟩

/-- Written from the amended wording of C8: strip the extension, then apply
each of the three leading-number patterns once, in the order bare,
bracketed, parenthesized — each stripping its match when it matches the
current remainder — then trim separators, capitalize a lowercase first
letter, and fall back to the original name when the result is empty. -/
def cleanTitleSequential (filename : String) : String :=
  let n0 := stripExtension filename.data
  let n1 := (leadNumBare? n0).getD n0
  let n2 := (leadNumBracket? n1).getD n1
  let n3 := (leadNumParen? n2).getD n2
  let n4 := stripBoth isTrimSep n3
  let n5 := capitalizeIfLower n4
  if n5.isEmpty then filename else ⟨n5⟩

/- ───────────────── filesystem model (directory trees) ───────────────── -/

/-- Metadata of one regular file of the modelled filesystem. -/
structure FileInfo where
  name : String
  size : Nat := 0
  mtime : Nat := 0
  deriving Repr, DecidableEq

mutual
/-- A directory: its regular files and its named subdirectories, in
directory-enumeration order (the order `os.scandir` and `os.walk` report). -/
inductive DirTree where
  | node (files : List FileInfo) (subs : SubDirs)
/-- The named subdirectories of a directory. -/
inductive SubDirs where
  | nil
  | cons (name : String) (tree : DirTree) (rest : SubDirs)
end

/-- Constant `IGNORE_FOLDERS` of `scanner/directory.py`. -/
def IGNORE_FOLDERS : List String :=
  [".git", "__pycache__", "node_modules", ".vscode", "trash", "deleteVideos", ".idea"]

/-- Ignore set of the `os.walk` in `scan_videos_on_startup` (`server.py`). -/
def SERVER_IGNORE_FOLDERS : List String :=
  [".git", "__pycache__", "node_modules", ".vscode", "trash", "deleteVideos",
   ".idea", ".transcoded"]

/-- Constant `VIDEO_EXTENSIONS` of `scanner/directory.py`. -/
def VIDEO_EXTENSIONS : List String :=
  [".mp4", ".mkv", ".webm", ".avi", ".mov", ".m4v"]

/-- Constant `VIDEO_EXTENSIONS` of `server.py`. -/
def SERVER_VIDEO_EXTENSIONS : List String :=
  [".mp4", ".mkv", ".webm", ".avi", ".mov", ".m4v", ".ts", ".mts", ".m2ts"]

def SUBTITLE_EXTENSIONS : List String := [".srt", ".vtt"]

def IMAGE_EXTENSIONS : List String :=
  [".jpg", ".jpeg", ".png", ".gif", ".webp", ".bmp", ".svg"]

def DOCUMENT_EXTENSIONS : List String :=
  [".pdf", ".txt", ".json", ".zip", ".rar", ".7z", ".md", ".html", ".htm", ".docx"]

/-- Model of `pathlib.PurePath.suffix` on a bare file name: the part from
the last dot on, accepted only when the dot is neither the first nor the
last character. -/
def pathSuffix (name : String) : String :=
  match name.data.reverse.takeWhile (· != '.'), name.data.reverse.dropWhile (· != '.') with
  | tail, '.' :: pre =>
    if tail.isEmpty || pre.isEmpty then "" else ⟨'.' :: tail.reverse⟩
  | _, _ => ""

/-- Model of `pathlib.PurePath.stem`: the name with `pathSuffix` removed. -/
def pathStem (name : String) : String :=
  match name.data.reverse.takeWhile (· != '.'), name.data.reverse.dropWhile (· != '.') with
  | tail, '.' :: pre =>
    if tail.isEmpty || pre.isEmpty then name else ⟨pre.reverse⟩
  | _, _ => name

/- ───────────── compatibility pipeline (server.py) ───────────── -/

/-- Metadata of one ffprobe stream; the `.get(..., '')` accesses of the
source make absent fields empty strings. -/
structure StreamInfo where
  codec_name : String := ""
  codec_type : String := ""
  profile : String := ""
  pix_fmt : String := ""
  deriving Repr, DecidableEq

/-- Parsed ffprobe output: container format name, container duration and
per-stream metadata.  A failed probe — `_probe_video` then returns the
empty dict — is modelled as `none` at every use site. -/
structure ProbeData where
  format_name : String := ""
  duration : Rat := 0
  streams : List StreamInfo := []
  deriving Repr, DecidableEq

/-- Constant `COMPATIBLE_CONTAINERS` of `server.py`. -/
def COMPATIBLE_CONTAINERS : List String := ["mov,mp4,m4a,3gp,3g2,mj2"]

/-- Constant `INCOMPATIBLE_H264_PROFILES` of `server.py`. -/
def INCOMPATIBLE_H264_PROFILES : List String :=
  ["high 10", "high 4:2:2", "high 4:4:4", "high 10 intra", "high 4:2:2 intra",
   "high 4:4:4 intra", "high 4:4:4 predictive"]

/-- Constant `BROWSER_COMPATIBLE_CODECS` of `server.py`. -/
def BROWSER_COMPATIBLE_CODECS : List String := ["h264", "aac", "mp3", "opus", "flac"]

/-- Body of the stream loop of `check_video_compatibility`: whether this
stream sets `needs_reencode` (the flag is only ever set, never cleared, so
the loop computes an `any`). -/
def streamNeedsReencode (s : StreamInfo) : Bool :=
  let codec := lowerStr s.codec_name
  if s.codec_type == "video" then
    let profile := lowerStr s.profile
    let pix_fmt := lowerStr s.pix_fmt
    if codec == "h264" then
      if INCOMPATIBLE_H264_PROFILES.contains profile then true
      else if strContainsSub pix_fmt "10le" || strContainsSub pix_fmt "10be" then true
      else false
    else if !(BROWSER_COMPATIBLE_CODECS.contains codec) then true
    else false
  else false

/-- Embedding of `check_video_compatibility` (`server.py`), taking the
probe result as input. -/
def check_video_compatibility (data : Option ProbeData) : String :=
  match data with
  | none => "compatible"
  | some d =>
    let bad_container := !(COMPATIBLE_CONTAINERS.contains d.format_name)
    let needs_reencode := d.streams.any streamNeedsReencode
    if needs_reencode then "transcode"
    else if bad_container then "remux"
    else "compatible"

/-- Written from the amended wording of C4: a stream forces a transcode
exactly when it is a VIDEO stream whose codec is h264 with an incompatible
profile or a 10-bit pixel format, or whose codec is not h264 and not in
the browser-safe set.  Audio streams are never checked. -/
def badVideoStream (s : StreamInfo) : Bool :=
  s.codec_type == "video" &&
    (if lowerStr s.codec_name == "h264" then
      INCOMPATIBLE_H264_PROFILES.contains (lowerStr s.profile) ||
        strContainsSub (lowerStr s.pix_fmt) "10le" ||
        strContainsSub (lowerStr s.pix_fmt) "10be"
    else !(BROWSER_COMPATIBLE_CODECS.contains (lowerStr s.codec_name)))

/-- Duration extraction `float(data.get('format', {}).get('duration', 0))`:
a failed probe yields 0. -/
def durOf (d : Option ProbeData) : Rat :=
  match d with
  | none => 0
  | some p => p.duration

/-- Embedding of `_verify_converted` (`server.py`).  The converted file is
given by its content (`none` when the file does not exist); probing is the
external `probe` parameter, applied to file contents. -/
def verify_converted (probe : List Nat → Option ProbeData) (origContent : List Nat)
    (temp : Option (List Nat)) : Bool :=
  match temp with
  | none => false
  | some t =>
    if t.length == 0 then false
    else
      let orig_data := probe origContent
      match probe t with
      | none => false
      | some conv =>
        if !(conv.streams.any (·.codec_type == "video")) then false
        else
          let orig_dur := durOf orig_data
          let conv_dur := conv.duration
          if orig_dur > 0 ∧ |orig_dur - conv_dur| > 2 then false
          else if !(COMPATIBLE_CONTAINERS.contains conv.format_name) then false
          else true

/-- Exit code and produced temp-file content of one ffmpeg invocation
(`none` when the invocation left no output file behind). -/
structure FfmpegRun where
  rc : Int
  out : Option (List Nat)

/-- External encoder behaviour for the up to three ffmpeg invocations of
`_convert_single_video`: the remux attempt, the transcode attempt, and the
retry after a failed hardware transcode. -/
structure EncoderEnv where
  remuxRun : FfmpegRun
  encodeRun : FfmpegRun
  retryRun : FfmpegRun

/-- Epilogue of `_convert_single_video`: `none` models the early
`return False` after a failed encode (temp deleted); otherwise the temp
file is verified, and only on success is the original unlinked and the
temp file renamed onto it. -/
def finishConversion (probe : List Nat → Option ProbeData) (orig : List Nat) :
    Option (Option (List Nat)) → Bool × List Nat × Option (List Nat)
  | none => (false, orig, none)
  | some (some t) =>
    if verify_converted probe orig (some t) then (true, t, none)
    else (false, orig, none)
  | some none => (false, orig, none)

/-- Embedding of `_convert_single_video` (`server.py`).  Returns
`(success, content of the original path afterwards, temp file left on
disk)`.  A failed remux deletes the temp file and falls back to
transcoding; a failed hardware transcode deletes the temp file and retries
once; any remaining failure or a failed verification deletes the temp file
and leaves the original untouched; success deletes the original and
renames the temp file onto it. -/
def convert_single_video (probe : List Nat → Option ProbeData) (env : EncoderEnv)
    (orig : List Nat) (mode : String) (has_nvenc : Bool) :
    Bool × List Nat × Option (List Nat) :=
  let s1 : String × Option (List Nat) :=
    if mode == "remux" then
      if env.remuxRun.rc != 0 then ("transcode", none)
      else ("remux", env.remuxRun.out)
    else (mode, none)
  let s2 : Option (Option (List Nat)) :=
    if s1.1 == "transcode" then
      let afterRetry :=
        if env.encodeRun.rc != 0 && has_nvenc then (env.retryRun.rc, env.retryRun.out)
        else (env.encodeRun.rc, env.encodeRun.out)
      if afterRetry.1 != 0 then none else some afterRetry.2
    else some s1.2
  finishConversion probe orig s2

/-- Probe data of the converted file in the C5 counterexample: a healthy
MP4 with one h264 video stream and duration 100. -/
def c5convData : ProbeData :=
  { format_name := "mov,mp4,m4a,3gp,3g2,mj2", duration := 100,
    streams := [{ codec_name := "h264", codec_type := "video",
                  profile := "high", pix_fmt := "yuv420p" }] }

/-- Concrete prober for the C5 counterexample: the original file `[0]`
probes with duration 0 (a failed duration read), the converted file `[1]`
probes as `c5convData`. -/
def c5probe : List Nat → Option ProbeData := fun b =>
  if b == [0] then some { format_name := "x", duration := 0, streams := [] }
  else if b == [1] then some c5convData
  else none

/-- Concrete encoder environment for the C5 counterexample: the remux
succeeds and writes `[1]`. -/
def c5env : EncoderEnv :=
  { remuxRun := ⟨0, some [1]⟩, encodeRun := ⟨1, none⟩, retryRun := ⟨1, none⟩ }

/- ───────────── conversion state machine (server.py) ───────────── -/

/-- Initial value of `_conversion_state['phase']` in the module-level
dictionary literal of `server.py`, before the scan thread runs. -/
def initial_conversion_phase : String := ""

mutual
/-- Video files discovered by `scan_videos_on_startup`: the `os.walk` over
the course directory, pruning only the server ignore set, keeping files
whose lowercased suffix is a server video extension. -/
def collectVideoFiles : DirTree → List String
  | .node files subs =>
    (files.map (·.name)).filter
        (fun n => SERVER_VIDEO_EXTENSIONS.contains (lowerStr (pathSuffix n)))
      ++ collectVideoFilesSubs subs
def collectVideoFilesSubs : SubDirs → List String
  | .nil => []
  | .cons name t rest =>
    (if SERVER_IGNORE_FOLDERS.contains name then [] else collectVideoFiles t)
      ++ collectVideoFilesSubs rest
end

/-- Embedding of `scan_videos_on_startup`: the sequence of values stored in
`_conversion_state['phase']`, paired with the `_to_convert` list it leaves
behind.  The compatibility classification of each discovered file is the
external parameter `compat`. -/
def scan_videos_on_startup (t : DirTree) (compat : String → String) :
    List String × List (String × String) :=
  let video_files := collectVideoFiles t
  if video_files.isEmpty then (["scanning", "done"], [])
  else
    let to_convert :=
      (video_files.map (fun f => (f, compat f))).filter (fun p => p.2 != "compatible")
    if to_convert.isEmpty then (["scanning", "done"], [])
    else (["scanning", "waiting"], to_convert)

/-- Phase values stored by `run_conversion` given the pending list (it
returns immediately when the list is empty). -/
def run_conversion_phases (to_convert : List (String × String)) : List String :=
  if to_convert.isEmpty then [] else ["converting", "done"]

/-- Phase history of one server run: the startup scan, followed by the
conversion batch when the user triggers `/api/convert` while the phase is
`waiting` (`handle_start_conversion` reports failure and does nothing
otherwise). -/
def conversionPhaseTrace (t : DirTree) (compat : String → String)
    (triggered : Bool) : List String :=
  let scanned := scan_videos_on_startup t compat
  if triggered && (scanned.1.getLast? == some "waiting") then
    scanned.1 ++ run_conversion_phases scanned.2
  else scanned.1

/- ───────────────────── decimal rendering (f-strings) ───────────────────── -/

/-- Character of one decimal digit (callers only pass values below 10). -/
def digitChar10 (d : Nat) : Char :=
  match d with
  | 0 => '0' | 1 => '1' | 2 => '2' | 3 => '3' | 4 => '4'
  | 5 => '5' | 6 => '6' | 7 => '7' | 8 => '8' | _ => '9'

/-- Decimal digits of `n`, most significant first, with explicit fuel
(any fuel above the digit count gives the same result; callers pass
`n + 1`). -/
def natDigitsAux (fuel n : Nat) : List Char :=
  match fuel with
  | 0 => []
  | f + 1 =>
    if n < 10 then [digitChar10 n]
    else natDigitsAux f (n / 10) ++ [digitChar10 (n % 10)]

/-- Decimal representation of a natural number, as Python `str`/f-strings
render non-negative integers. -/
def natStr (n : Nat) : String := ⟨natDigitsAux (n + 1) n⟩

/- ───────────────── media byte-range serving (server.py) ───────────────── -/

/-- Status line and headers of one HTTP response as the handler emits them. -/
structure HttpResponse where
  status : Nat
  headers : List (String × String)
  deriving Repr, DecidableEq

/-- Match of `bytes=(\d+)-(\d*)` anchored at the current position: the
greedy digit run after `bytes=`, a dash, and an optional digit run. -/
def matchBytesAt (l : List Char) : Option (Nat × Option Nat) :=
  if listIsPfx "bytes=".data l then
    match spanP Char.isDigit (l.drop 6) with
    | ([], _) => none
    | (ds, r2) =>
      match r2 with
      | '-' :: r3 =>
        let ds2 := (spanP Char.isDigit r3).1
        some (natOfDigits ds, if ds2.isEmpty then none else some (natOfDigits ds2))
      | _ => none
  else none

/-- Result of `re.search(r'bytes=(\d+)-(\d*)', header)`: the leftmost
position where the pattern matches. -/
def searchBytesRange : List Char → Option (Nat × Option Nat)
  | [] => none
  | c :: t =>
    match matchBytesAt (c :: t) with
    | some r => some r
    | none => searchBytesRange t

/-- Embedding of the response-emitting tail of
`VideoPlayerHandler.serve_media_file` (`server.py`), for a file of
`file_size` bytes with content type `ctype` and Last-Modified string
`lastmod`: the response sent and the inclusive byte span streamed.  The
416 branch is a bare `send_error` — the standard error page, which carries
no `Content-Range` header (modelled as an empty header list). -/
def serveMediaRange (file_size : Nat) (ctype lastmod : String)
    (range_header : Option String) : HttpResponse × Option (Nat × Nat) :=
  let full : HttpResponse × Option (Nat × Nat) :=
    ({ status := 200,
       headers := [("Content-Type", ctype),
                   ("Content-Length", natStr file_size),
                   ("Accept-Ranges", "bytes"),
                   ("Cache-Control", "public, max-age=3600"),
                   ("Last-Modified", lastmod),
                   ("Connection", "keep-alive")] },
     if file_size = 0 then none else some (0, file_size - 1))
  match range_header with
  | none => full
  | some h =>
    match searchBytesRange h.data with
    | none => full
    | some (start, endo) =>
      let e := match endo with | some e => e | none => file_size - 1
      if start ≥ file_size then
        ({ status := 416, headers := [] }, none)
      else
        let e := min e (file_size - 1)
        ({ status := 206,
           headers := [("Content-Type", ctype),
                       ("Content-Range",
                         "bytes " ++ natStr start ++ "-" ++ natStr e ++ "/" ++ natStr file_size),
                       ("Content-Length", natStr (e - start + 1)),
                       ("Accept-Ranges", "bytes"),
                       ("Cache-Control", "public, max-age=3600"),
                       ("Connection", "keep-alive")] },
         some (start, e))

/-- Embedding of the Range branch of `RangeHTTPRequestHandler.send_head`
(`server.py`): on a start offset past the end it sends the 416 error AND
appends `Content-Range: bytes */<length>`; otherwise 206 with the span
exactly as parsed (this handler does not clamp `end`). -/
def sendHeadRange (file_len : Nat) (ctype lastmod : String)
    (range_header : Option String) : HttpResponse :=
  let plain : HttpResponse := { status := 200, headers := [] }
  match range_header with
  | none => plain
  | some h =>
    match searchBytesRange h.data with
    | none => plain
    | some (start, endo) =>
      let e := match endo with | some e => e | none => file_len - 1
      if start ≥ file_len then
        { status := 416, headers := [("Content-Range", "bytes */" ++ natStr file_len)] }
      else
        { status := 206,
          headers := [("Content-type", ctype),
                      ("Content-Range",
                        "bytes " ++ natStr start ++ "-" ++ natStr e ++ "/" ++ natStr file_len),
                      ("Content-Length", natStr (e - start + 1)),
                      ("Last-Modified", lastmod),
                      ("Accept-Ranges", "bytes"),
                      ("Connection", "keep-alive"),
                      ("Cache-Control", "public, max-age=3600")] }

/- ───────────────── media path confinement (server.py) ───────────────── -/

/-- Splitting a path string at `/` separators. -/
def splitSlashAux (cur : List Char) : List Char → List (List Char)
  | [] => [cur.reverse]
  | c :: t =>
    if c = '/' then cur.reverse :: splitSlashAux [] t
    else splitSlashAux (c :: cur) t

def splitSlash (s : String) : List String :=
  (splitSlashAux [] s.data).map (fun l => ⟨l⟩)

/-- Effect of `Path.resolve()` on an absolute path without symlinks:
`..` pops a segment (never above the filesystem root), `.` and empty
segments vanish. -/
def resolveSegs (segs : List String) : List String :=
  segs.foldl
    (fun acc s =>
      if s = ".." then acc.dropLast
      else if s = "." ∨ s = "" then acc
      else acc ++ [s])
    []

/-- Rendered absolute path of a segment list (`str(path)`). -/
def renderAbs (segs : List String) : String :=
  ⟨'/' :: List.intercalate ['/'] (segs.map String.data)⟩

/-- Joining `self.course_path / decoded_path` (pathlib semantics: an
absolute right operand replaces the left operand). -/
def joinDecoded (rootSegs : List String) (decoded : String) : List String :=
  if strIsPfx "/" decoded then splitSlash decoded
  else rootSegs ++ splitSlash decoded

/-- Outcome of the path checks of `serve_media_file`. -/
inductive MediaResult where
  | forbidden
  | notFound
  | notAFile
  | served (path : String)
  deriving Repr, DecidableEq

/-- Embedding of the path-confinement part of
`VideoPlayerHandler.serve_media_file` (`server.py` lines 767-791).  The
requested path is given already percent-decoded (the claim quantifies over
decoded paths); the filesystem is abstracted by the predicates `exists_`
and `isFile` on rendered absolute paths.  The security check is the
string-prefix test `str(file_path).startswith(str(course_root))` of the
source. -/
def serve_media_file_path (rootSegs : List String) (decoded : String)
    (exists_ isFile : String → Bool) : MediaResult :=
  let resolved := resolveSegs (joinDecoded rootSegs decoded)
  let rendered := renderAbs resolved
  let rootRendered := renderAbs (resolveSegs rootSegs)
  if !(strIsPfx rootRendered rendered) then .forbidden
  else if !(exists_ rendered) then .notFound
  else if !(isFile rendered) then .notAFile
  else .served rendered

/- ───────────── playlist model (scanner/model.py) ───────────── -/

/-- The `DocumentType` enumeration of `scanner/model.py`: PDF, IMAGE, TEXT,
JSON, ZIP, HTML, OTHER.  There is no DOCX member. -/
inductive DocumentType where
  | pdf | image | text | json | zip | html | other
  deriving Repr, DecidableEq

/-- Dataclass `Subtitle` of `scanner/model.py`. -/
structure Subtitle where
  lang : String
  label : String
  path : String
  file : String
  deriving Repr, DecidableEq

/-- Dataclass `Document` of `scanner/model.py`. -/
structure Document where
  type : DocumentType
  title : String
  file : String
  path : String
  deriving Repr, DecidableEq

/-- Dataclass `Video` of `scanner/model.py`. -/
structure Video where
  title : String
  file : String
  path : String
  order : Nat
  duration : Nat := 0
  subtitles : List Subtitle := []
  deriving Repr, DecidableEq

mutual
/-- Dataclass `Chapter` of `scanner/model.py` (recursive children). -/
inductive Chapter where
  | mk (title : String) (order : Nat) (path : String)
       (videos : List Video) (documents : List Document) (children : ChapterList)
/-- A list of chapters (spelled out so that recursion over the chapter tree
stays structural). -/
inductive ChapterList where
  | nil
  | cons (c : Chapter) (rest : ChapterList)
end

def Chapter.title : Chapter → String
  | .mk t _ _ _ _ _ => t

def Chapter.order : Chapter → Nat
  | .mk _ o _ _ _ _ => o

def Chapter.path : Chapter → String
  | .mk _ _ p _ _ _ => p

def Chapter.videos : Chapter → List Video
  | .mk _ _ _ v _ _ => v

def Chapter.documents : Chapter → List Document
  | .mk _ _ _ _ d _ => d

def Chapter.children : Chapter → ChapterList
  | .mk _ _ _ _ _ c => c

def ChapterList.ofList : List Chapter → ChapterList
  | [] => .nil
  | c :: r => .cons c (ChapterList.ofList r)

def ChapterList.toList : ChapterList → List Chapter
  | .nil => []
  | .cons c r => c :: ChapterList.toList r

/- ───────────── filesystem scanner (scanner/directory.py) ───────────── -/

/-- Embedding of `get_document_type`.  The source evaluates
`DocumentType.DOCX` for a `.docx` extension, but the enumeration has no
member `DOCX`, so this attribute access raises `AttributeError`; the raise
is the `Except.error` case. -/
def get_document_type (extension : String) : Except String DocumentType :=
  let ext := lowerStr extension
  if ext == ".pdf" then .ok .pdf
  else if IMAGE_EXTENSIONS.contains ext then .ok .image
  else if ext == ".txt" || ext == ".md" then .ok .text
  else if ext == ".json" then .ok .json
  else if [".zip", ".rar", ".7z"].contains ext then .ok .zip
  else if [".html", ".htm"].contains ext then .ok .html
  else if ext == ".docx" then .error "AttributeError: DocumentType has no attribute DOCX"
  else .ok .other

/-- The ordered `lang_codes` table of `find_subtitles`. -/
def lang_codes : List (String × String) :=
  [("en", "English"), ("eng", "English"), ("english", "English"),
   ("es", "Spanish"), ("spa", "Spanish"), ("spanish", "Spanish"),
   ("fr", "French"), ("fra", "French"), ("french", "French"),
   ("de", "German"), ("deu", "German"), ("german", "German"),
   ("it", "Italian"), ("ita", "Italian"), ("italian", "Italian"),
   ("pt", "Portuguese"), ("por", "Portuguese"), ("portuguese", "Portuguese"),
   ("ru", "Russian"), ("rus", "Russian"), ("russian", "Russian"),
   ("zh", "Chinese"), ("chi", "Chinese"), ("chinese", "Chinese"),
   ("ja", "Japanese"), ("jpn", "Japanese"), ("japanese", "Japanese"),
   ("ko", "Korean"), ("kor", "Korean"), ("korean", "Korean")]

/-- Python `str.capitalize`: first character upper, rest lower. -/
def capitalizePy (s : String) : String :=
  match s.data with
  | [] => ""
  | c :: rest => ⟨charUpper c :: lowerL rest⟩

/-- First entry of `lang_codes` matching the remainder, with the match
condition of the source loop. -/
def findLangCode (remainder : String) : Option (String × String) :=
  lang_codes.find? (fun p =>
    remainder == p.1 || strIsPfx (p.1 ++ ".") remainder ||
      strContainsSub (lowerStr remainder) p.1)

/-- Language-detection part of `find_subtitles` for one subtitle file:
given the lowercased video stem, the lowercased subtitle stem, whether the
names matched, and the original-case subtitle stem, produce `(lang,
label)`. -/
def subtitleLangLabel (videoStem subStem : String) (name_matches : Bool)
    (origStem : String) : String × String :=
  let remainder : String :=
    if name_matches then ⟨subStem.data.drop videoStem.data.length⟩ else subStem
  if remainder.data.isEmpty then ("en", "English")
  else
    let remainder : String :=
      ⟨remainder.data.dropWhile (fun c => c = '.' || c = '_' || c = '-' || c = ' ')⟩
    match findLangCode remainder with
    | some (code, lname) =>
      (if code.data.length > 2 then ⟨code.data.take 2⟩ else code, lname)
    | none =>
      if !remainder.data.isEmpty && !name_matches then ("en", origStem)
      else if !remainder.data.isEmpty then (⟨remainder.data.take 2⟩, capitalizePy remainder)
      else ("en", "English")

/-- Embedding of `find_subtitles`.  `dirFiles` are the file names that
`get_all_files` collected for the folder of the video (dot entries and
names in `IGNORE_FOLDERS` excluded), in enumeration order; subtitle `path`
fields are filled by the caller, as in the source. -/
def find_subtitles (videoName : String) (dirFiles : List String) : List Subtitle :=
  let video_stem := lowerStr (pathStem videoName)
  let dir_subtitles :=
    dirFiles.filter (fun f => SUBTITLE_EXTENSIONS.contains (lowerStr (pathSuffix f)))
  let dir_videos :=
    dirFiles.filter (fun f => VIDEO_EXTENSIONS.contains (lowerStr (pathSuffix f)))
  let is_single_video_folder := dir_videos.length == 1
  dir_subtitles.filterMap (fun f =>
    let sub_stem := lowerStr (pathStem f)
    let name_matches := strIsPfx video_stem sub_stem
    if !name_matches && !is_single_video_folder then none
    else
      let ll := subtitleLangLabel video_stem sub_stem name_matches (pathStem f)
      some { lang := ll.1, label := ll.2, path := "", file := f })

/-- Characters `urllib.parse.quote(part, safe='')` leaves unescaped:
ASCII letters, digits, and `_.-~`. -/
def isQuoteSafe (c : Char) : Bool :=
  isAsciiLetter c || c.isDigit || c = '_' || c = '.' || c = '-' || c = '~'

/-- UTF-8 encoding of one character, as byte values. -/
def utf8Char (c : Char) : List Nat :=
  let n := c.toNat
  if n < 0x80 then [n]
  else if n < 0x800 then [0xC0 + n / 64, 0x80 + n % 64]
  else if n < 0x10000 then [0xE0 + n / 4096, 0x80 + n / 64 % 64, 0x80 + n % 64]
  else [0xF0 + n / 262144, 0x80 + n / 4096 % 64, 0x80 + n / 64 % 64, 0x80 + n % 64]

/-- UTF-8 encoding of a string (`str.encode('utf-8')`). -/
def utf8Bytes (s : String) : List Nat := s.data.flatMap utf8Char

/-- Uppercase hex digit. -/
def hexUpper (d : Nat) : Char :=
  match d with
  | 0 => '0' | 1 => '1' | 2 => '2' | 3 => '3' | 4 => '4' | 5 => '5' | 6 => '6'
  | 7 => '7' | 8 => '8' | 9 => '9' | 10 => 'A' | 11 => 'B' | 12 => 'C' | 13 => 'D'
  | 14 => 'E' | _ => 'F'

/-- Embedding of `urllib.parse.quote(part, safe='')`: percent-encode every
UTF-8 byte of every non-safe character, uppercase hex. -/
def pyQuote (s : String) : String :=
  ⟨s.data.flatMap (fun c =>
    if isQuoteSafe c then [c]
    else (utf8Char c).flatMap (fun b => ['%', hexUpper (b / 16), hexUpper (b % 16)]))⟩

/-- Embedding of `build_url_path`: percent-encode each relative path
segment and join under `/media/`. -/
def build_url_path (relParts : List String) : String :=
  "/media/" ++ String.intercalate "/" (relParts.map pyQuote)

mutual
/-- Embedding of `has_videos_recursive` (the inner helper of
`scan_folder`), split over the chapter tree. -/
def hasVideosCh : Chapter → Bool
  | .mk _ _ _ vids _ children => !vids.isEmpty || hasVideosChL children
def hasVideosChL : ChapterList → Bool
  | .nil => false
  | .cons c r => hasVideosCh c || hasVideosChL r
end

def has_videos_recursive (vids : List Video) (chapters : ChapterList) : Bool :=
  !vids.isEmpty || hasVideosChL chapters

/-- One scanned folder: its videos, documents and child chapters. -/
abbrev ScanResult := List Video × List Document × List Chapter

/-- The file loop of `scan_folder` over the sorted file names: builds
videos (with a 1-based order counting videos only) and documents; the
document-type lookup can raise, which aborts the scan. -/
def classifyFiles (relPath : List String) (dirAllFiles : List String) :
    List String → Nat → Except String (List Video × List Document)
  | [], _ => .ok ([], [])
  | f :: rest, order =>
    let ext := lowerStr (pathSuffix f)
    if VIDEO_EXTENSIONS.contains ext then
      let subtitles := (find_subtitles f dirAllFiles).map
        (fun sub => { sub with path := build_url_path (relPath ++ [sub.file]) })
      let video : Video :=
        { title := get_clean_title f, file := f,
          path := build_url_path (relPath ++ [f]),
          order := order, duration := 0, subtitles := subtitles }
      match classifyFiles relPath dirAllFiles rest (order + 1) with
      | .error e => .error e
      | .ok (vs, ds) => .ok (video :: vs, ds)
    else if SUBTITLE_EXTENSIONS.contains ext then
      classifyFiles relPath dirAllFiles rest order
    else if IMAGE_EXTENSIONS.contains ext || DOCUMENT_EXTENSIONS.contains ext then
      match get_document_type ext with
      | .error e => .error e
      | .ok dt =>
        let doc : Document :=
          { type := dt, title := f, file := f, path := build_url_path (relPath ++ [f]) }
        match classifyFiles relPath dirAllFiles rest order with
        | .error e => .error e
        | .ok (vs, ds) => .ok (vs, doc :: ds)
    else
      classifyFiles relPath dirAllFiles rest order

/-- The subfolder loop of `scan_folder`, folded over the sorted
`(folder name, recursive result)` pairs: wrapper promotion (one video, no
child chapters), normal chapter (some video transitively), document-only
chapter, or silent drop. -/
def foldChildren (relPath : List String) :
    List (String × ScanResult) → List Video × List Document × List Chapter
  | [] => ([], [], [])
  | (name, r) :: rest =>
    let acc := foldChildren relPath rest
    let folder_sort_num := (extract_sort_key name).2.1
    let chPath := String.intercalate "/" (relPath ++ [name])
    if r.1.length == 1 && r.2.2.length == 0 then
      (r.1.map (fun v => { v with order := folder_sort_num, title := name }) ++ acc.1,
       r.2.1 ++ acc.2.1, acc.2.2)
    else if has_videos_recursive r.1 (.ofList r.2.2) then
      (acc.1, acc.2.1,
       Chapter.mk name folder_sort_num chPath r.1 r.2.1 (.ofList r.2.2) :: acc.2.2)
    else if !r.2.1.isEmpty || !r.2.2.isEmpty then
      (acc.1, acc.2.1,
       Chapter.mk name folder_sort_num chPath [] r.2.1 (.ofList r.2.2) :: acc.2.2)
    else acc

mutual
/-- Embedding of `scan_folder` (`scanner/directory.py`).  `relPath` is the
path of this folder relative to the scan root.  Dot entries are skipped;
ignored folder names are pruned; files are sorted with the ordering
engine, classified, and subtitles linked; subfolders are scanned
recursively, their results combined by `foldChildren` in sorted folder
order, and the video and chapter lists re-sorted by title.  The Python
exception from `get_document_type` propagates as `Except.error` (every
raise carries the same message, so the evaluation order of siblings does
not affect the result). -/
def scan_folder (relPath : List String) : DirTree → Except String ScanResult
  | .node files subs =>
    match scanSubResults relPath subs with
    | .error e => .error e
    | .ok childResults =>
      let fileNames := (files.map (fun fi => fi.name)).filter (fun n => !(strIsPfx "." n))
      let dirAllFiles := (files.map (fun fi => fi.name)).filter
          (fun n => !(strIsPfx "." n) && !(IGNORE_FOLDERS.contains n))
      let sortedFiles := sort_items id fileNames
      match classifyFiles relPath dirAllFiles sortedFiles 1 with
      | .error e => .error e
      | .ok fres =>
        let sortedChildren := sort_items Prod.fst childResults
        let folded := foldChildren relPath sortedChildren
        .ok (sort_items (fun v => v.title) (fres.1 ++ folded.1),
             fres.2 ++ folded.2.1,
             sort_items Chapter.title folded.2.2)
/-- Recursive scan of the (unskipped) subfolders, producing the
`(folder name, result)` pairs in enumeration order. -/
def scanSubResults (relPath : List String) : SubDirs → Except String (List (String × ScanResult))
  | .nil => .ok []
  | .cons name t rest =>
    if strIsPfx "." name || IGNORE_FOLDERS.contains name then scanSubResults relPath rest
    else
      match scan_folder (relPath ++ [name]) t with
      | .error e => .error e
      | .ok r =>
        match scanSubResults relPath rest with
        | .error e => .error e
        | .ok rs => .ok ((name, r) :: rs)
end

def subsToList : SubDirs → List (String × DirTree)
  | .nil => []
  | .cons n t r => (n, t) :: subsToList r

mutual
/-- Names of video files anywhere in a tree, under the SCANNER filters:
dot entries skipped, ignored folders pruned, scanner video extensions. -/
def scannerVideoFiles : DirTree → List String
  | .node files subs =>
    (files.map (fun fi => fi.name)).filter
        (fun n => !(strIsPfx "." n) && VIDEO_EXTENSIONS.contains (lowerStr (pathSuffix n)))
      ++ scannerVideoFilesSubs subs
def scannerVideoFilesSubs : SubDirs → List String
  | .nil => []
  | .cons name t rest =>
    (if strIsPfx "." name || IGNORE_FOLDERS.contains name then [] else scannerVideoFiles t)
      ++ scannerVideoFilesSubs rest
end

/-- Subfolder of the C1 counterexample holding only a document. -/
def c1D : DirTree := .node [{ name := "notes.pdf" }] .nil

/-- Folder of the C1 counterexample: exactly one video file and one
subfolder that holds no videos (only a document). -/
def c1F : DirTree := .node [{ name := "1_lesson.mp4" }] (.cons "docs" c1D .nil)

/-- Parent folder of the C1 counterexample. -/
def c1parent : DirTree := .node [] (.cons "F" c1F .nil)

/- ───────────── structure fingerprint (generate_structure_hash) ───────────── -/

/-- Value of `os.path.relpath(root, root_path)` for the directory at
relative segments `rel`: `"."` at the scan root, slash-joined segments
below it. -/
def relRootStr (rel : List String) : String :=
  if rel.isEmpty then "." else String.intercalate "/" rel

/-- The line `f"{rel_root}/{f}|{stat.st_size}|{int(stat.st_mtime)}"`
appended for one file (modification times modelled as naturals). -/
def hashLine (rel : List String) (fi : FileInfo) : String :=
  relRootStr rel ++ "/" ++ fi.name ++ "|" ++ natStr fi.size ++ "|" ++ natStr fi.mtime

/-- Stat lookup `(Path(root) / f).stat()`: the directory entry carrying the
name (on a real filesystem unique; the model takes the first). -/
def findFile (files : List FileInfo) (n : String) : Option FileInfo :=
  files.find? (fun fi => fi.name == n)

/-- Lines contributed by one directory of the walk: non-dot file names in
Python sorted order, each rendered with its stat data (a failed stat is
skipped, as in the `except: pass` of the source). -/
def dirLines (rel : List String) (files : List FileInfo) : List String :=
  ((stableSortBy strLtB
      ((files.map (fun fi => fi.name)).filter (fun n => !(strIsPfx "." n)))).filterMap
    (fun n => (findFile files n).map (hashLine rel)))

mutual
/-- Embedding of the `os.walk` of `generate_structure_hash`: this
directory, then the kept subdirectories in Python sorted order
(`dirs[:] = sorted(filtered)`), depth first. -/
def walkLines (rel : List String) : DirTree → List String
  | .node files subs =>
    dirLines rel files ++
      (stableSortBy (fun a b => strLtB a.1 b.1) (walkSubsLines rel subs)).flatMap Prod.snd
def walkSubsLines (rel : List String) : SubDirs → List (String × List String)
  | .nil => []
  | .cons n t rest =>
    (if IGNORE_FOLDERS.contains n || strIsPfx "." n then []
     else [(n, walkLines (rel ++ [n]) t)]) ++ walkSubsLines rel rest
end

/-- The string hashed by `generate_structure_hash`:
`"\n".join(hash_data)`. -/
def structureContent (t : DirTree) : String :=
  String.intercalate "\n" (walkLines [] t)

/- ───────────────────────── MD5 (hashlib.md5) ───────────────────────── -/

/-- Word modulus of MD5 arithmetic. -/
def M32 : Nat := 4294967296

/-- Byte-length modulus of the MD5 length field. -/
def M64 : Nat := 18446744073709551616

def rotl32 (x s : Nat) : Nat := ((x <<< s) ||| (x >>> (32 - s))) % M32

def md5F (b c d : Nat) : Nat := (b &&& c) ||| ((b ^^^ 4294967295) &&& d)

def md5G (b c d : Nat) : Nat := (d &&& b) ||| ((d ^^^ 4294967295) &&& c)

def md5H (b c d : Nat) : Nat := b ^^^ c ^^^ d

def md5I (b c d : Nat) : Nat := c ^^^ (b ||| (d ^^^ 4294967295))

/-- The 64 MD5 sine constants. -/
def md5K : List Nat :=
  [0xd76aa478, 0xe8c7b756, 0x242070db, 0xc1bdceee,
   0xf57c0faf, 0x4787c62a, 0xa8304613, 0xfd469501,
   0x698098d8, 0x8b44f7af, 0xffff5bb1, 0x895cd7be,
   0x6b901122, 0xfd987193, 0xa679438e, 0x49b40821,
   0xf61e2562, 0xc040b340, 0x265e5a51, 0xe9b6c7aa,
   0xd62f105d, 0x02441453, 0xd8a1e681, 0xe7d3fbc8,
   0x21e1cde6, 0xc33707d6, 0xf4d50d87, 0x455a14ed,
   0xa9e3e905, 0xfcefa3f8, 0x676f02d9, 0x8d2a4c8a,
   0xfffa3942, 0x8771f681, 0x6d9d6122, 0xfde5380c,
   0xa4beea44, 0x4bdecfa9, 0xf6bb4b60, 0xbebfbc70,
   0x289b7ec6, 0xeaa127fa, 0xd4ef3085, 0x04881d05,
   0xd9d4d039, 0xe6db99e5, 0x1fa27cf8, 0xc4ac5665,
   0xf4292244, 0x432aff97, 0xab9423a7, 0xfc93a039,
   0x655b59c3, 0x8f0ccc92, 0xffeff47d, 0x85845dd1,
   0x6fa87e4f, 0xfe2ce6e0, 0xa3014314, 0x4e0811a1,
   0xf7537e82, 0xbd3af235, 0x2ad7d2bb, 0xeb86d391]

/-- The 64 MD5 per-round shift amounts. -/
def md5S : List Nat :=
  [7, 12, 17, 22, 7, 12, 17, 22, 7, 12, 17, 22, 7, 12, 17, 22,
   5, 9, 14, 20, 5, 9, 14, 20, 5, 9, 14, 20, 5, 9, 14, 20,
   4, 11, 16, 23, 4, 11, 16, 23, 4, 11, 16, 23, 4, 11, 16, 23,
   6, 10, 15, 21, 6, 10, 15, 21, 6, 10, 15, 21, 6, 10, 15, 21]

/-- MD5 message padding: `0x80`, zeros to 56 mod 64, then the bit length
as 8 little-endian bytes. -/
def md5Pad (msg : List Nat) : List Nat :=
  let len := msg.length
  msg ++ [128] ++ List.replicate ((120 - (len + 1) % 64) % 64) 0 ++
    (List.range 8).map (fun i => (len * 8) % M64 / 256 ^ i % 256)

def chunk64 : List Nat → List (List Nat)
  | [] => []
  | x :: rest => (x :: rest).take 64 :: chunk64 ((x :: rest).drop 64)
termination_by l => l.length
decreasing_by simp; omega

/-- 16 little-endian 32-bit words of one 64-byte block. -/
def bytesToWordsLE : List Nat → List Nat
  | b0 :: b1 :: b2 :: b3 :: rest =>
    (b0 + 256 * b1 + 65536 * b2 + 16777216 * b3) :: bytesToWordsLE rest
  | _ => []

/-- One MD5 round: the non-linear function and message index by round
quarter, then the rotate-add step. -/
def md5Round (M : List Nat) (st : Nat × Nat × Nat × Nat) (i : Nat) :
    Nat × Nat × Nat × Nat :=
  let a := st.1
  let b := st.2.1
  let c := st.2.2.1
  let d := st.2.2.2
  let f :=
    if i < 16 then md5F b c d
    else if i < 32 then md5G b c d
    else if i < 48 then md5H b c d
    else md5I b c d
  let g :=
    if i < 16 then i
    else if i < 32 then (5 * i + 1) % 16
    else if i < 48 then (3 * i + 5) % 16
    else (7 * i) % 16
  let tmp := (a + f + md5K.getD i 0 + M.getD g 0) % M32
  (d, (b + rotl32 tmp (md5S.getD i 0)) % M32, b, c)

/-- One 64-byte block: 64 rounds, then the feed-forward addition. -/
def md5Block (st : Nat × Nat × Nat × Nat) (block : List Nat) :
    Nat × Nat × Nat × Nat :=
  let r := (List.range 64).foldl (md5Round (bytesToWordsLE block)) st
  ((st.1 + r.1) % M32, (st.2.1 + r.2.1) % M32,
   (st.2.2.1 + r.2.2.1) % M32, (st.2.2.2 + r.2.2.2) % M32)

def md5InitState : Nat × Nat × Nat × Nat :=
  (0x67452301, 0xefcdab89, 0x98badcfe, 0x10325476)

def md5FinalState (bytes : List Nat) : Nat × Nat × Nat × Nat :=
  (chunk64 (md5Pad bytes)).foldl md5Block md5InitState

def wordLEBytes (w : Nat) : List Nat :=
  [w % 256, w / 256 % 256, w / 65536 % 256, w / 16777216 % 256]

/-- The 16 digest bytes (little-endian per state word). -/
def md5DigestBytes (bytes : List Nat) : List Nat :=
  wordLEBytes (md5FinalState bytes).1 ++ wordLEBytes (md5FinalState bytes).2.1 ++
    wordLEBytes (md5FinalState bytes).2.2.1 ++ wordLEBytes (md5FinalState bytes).2.2.2

/-- Lowercase hex digit. -/
def hexLower (d : Nat) : Char :=
  match d with
  | 0 => '0' | 1 => '1' | 2 => '2' | 3 => '3' | 4 => '4' | 5 => '5' | 6 => '6'
  | 7 => '7' | 8 => '8' | 9 => '9' | 10 => 'a' | 11 => 'b' | 12 => 'c' | 13 => 'd'
  | 14 => 'e' | _ => 'f'

/-- The `hexdigest()` string of the MD5 of the given bytes. -/
def md5hex (bytes : List Nat) : String :=
  ⟨(md5DigestBytes bytes).flatMap (fun b => [hexLower (b / 16 % 16), hexLower (b % 16)])⟩

/-- Little-endian byte value of a byte list. -/
def leVal : List Nat → Nat
  | [] => 0
  | b :: rest => b + 256 * leVal rest

/-- The digest as one number (determines `md5hex`). -/
def md5nat (bytes : List Nat) : Nat := leVal (md5DigestBytes bytes)

/-- Embedding of `generate_structure_hash` (`scanner/directory.py`):
MD5 hexdigest of the UTF-8 encoded collected data string. -/
def generate_structure_hash (t : DirTree) : String :=
  md5hex (utf8Bytes (structureContent t))

/- ───────────── modification of one file (for sensitivity) ───────────── -/

mutual
/-- Set the size and mtime of the file named `fname` in the directory at
`dpath` (navigation takes the first subdirectory carrying each segment
name, and the first file carrying `fname` is the one `findFile` sees). -/
def setFileStat (dpath : List String) (fname : String) (ns nm : Nat) :
    DirTree → DirTree
  | .node files subs =>
    match dpath with
    | [] =>
      .node (files.map (fun fi =>
        if fi.name == fname then { fi with size := ns, mtime := nm } else fi)) subs
    | d :: drest => .node files (setFileStatSubs d drest fname ns nm subs)
def setFileStatSubs (d : String) (drest : List String) (fname : String) (ns nm : Nat) :
    SubDirs → SubDirs
  | .nil => .nil
  | .cons n t rest =>
    if n == d then .cons n (setFileStat drest fname ns nm t) rest
    else .cons n t (setFileStatSubs d drest fname ns nm rest)
end

mutual
/-- The stat `(size, mtime)` of the file the modification targets. -/
def lookupFileStat (dpath : List String) (fname : String) :
    DirTree → Option (Nat × Nat)
  | .node files subs =>
    match dpath with
    | [] => (findFile files fname).map (fun fi => (fi.size, fi.mtime))
    | d :: drest => lookupFileStatSubs d drest fname subs
def lookupFileStatSubs (d : String) (drest : List String) (fname : String) :
    SubDirs → Option (Nat × Nat)
  | .nil => none
  | .cons n t rest =>
    if n == d then lookupFileStat drest fname t
    else lookupFileStatSubs d drest fname rest
end

/-- Single-file tree family for the C9 pigeonhole counterexample. -/
def c9tree (s : Nat) : DirTree := .node [{ name := "a", size := s, mtime := 0 }] .nil

/-- Wrapper folder of the C1 witness: exactly one video, no subfolders. -/
def c1wF : DirTree := .node [{ name := "a.mp4" }] .nil

/-- Parent folder of the C1 witness. -/
def c1wParent : DirTree := .node [] (.cons "02 Wrap" c1wF .nil)

/-- The video as scanned inside the witness wrapper folder, before
promotion. -/
def c1wVideo : Video :=
  { title := "A", file := "a.mp4", path := "/media/02%20Wrap/a.mp4", order := 1 }

/-- The parent video list after promotion in the C1 witness. -/
def c1wVids : List Video :=
  [{ title := "02 Wrap", file := "a.mp4", path := "/media/02%20Wrap/a.mp4", order := 2 }]

/- ═════════════════════════════ THEOREMS ═════════════════════════════ -/

/- ───────────────────── sorting infrastructure lemmas ───────────────────── -/

theorem insertSorted_perm (lt : α → α → Bool) (x : α) (l : List α) :
    (insertSorted lt x l).Perm (x :: l) := by
  induction l with
  | nil => simp [insertSorted]
  | cons y ys ih =>
    simp only [insertSorted]
    split
    · exact (List.Perm.cons y ih).trans (List.Perm.swap x y ys)
    · exact List.Perm.refl _

theorem stableSortBy_perm (lt : α → α → Bool) (l : List α) :
    (stableSortBy lt l).Perm l := by
  induction l with
  | nil => exact List.Perm.refl _
  | cons x xs ih =>
    exact (insertSorted_perm lt x (stableSortBy lt xs)).trans (List.Perm.cons x ih)

theorem mem_stableSortBy {lt : α → α → Bool} {l : List α} {x : α} :
    x ∈ stableSortBy lt l ↔ x ∈ l :=
  (stableSortBy_perm lt l).mem_iff

theorem mem_sort_items {key : α → String} {l : List α} {x : α} :
    x ∈ sort_items key l ↔ x ∈ l :=
  mem_stableSortBy

/-- Helper: a name starting with a dash gets the dash sort key. -/
theorem extract_sort_key_dash {a : String} (ha : strIsPfx "-" a = true) :
    extract_sort_key a = ("~~", 999998, lowerStr a) := by
  match h : a.data with
  | [] => rw [strIsPfx, h] at ha; simp [listIsPfx] at ha
  | c :: t =>
    rw [strIsPfx, h] at ha
    simp only [listIsPfx, Bool.and_eq_true] at ha
    have hc : c = '-' := (eq_of_beq ha.1).symm
    rw [extract_sort_key, h, hc]
    rfl

/-- Helper: the key comparison is decided by the group component when the
groups compare strictly. -/
theorem keyLt_of_fst {x y : String × Nat × String} (h : strLtB x.1 y.1 = true) :
    keyLt x y = true := by
  simp [keyLt, h]

/- ───────────────────────────── claim C2 ───────────────────────────── -/

/-- Claim C2, counterexample.  The name `"~~~ 1"` parses to the number 1 by
the word-number rule (its sort key is `("~~~", 1, "")`), yet the
dash-prefixed name `"-a"` sorts ABOVE it, refuting the part of the claim
stating that a name starting with `-` sorts below every name that parses
to a number. -/
theorem C2_counterexample :
    extract_sort_key "~~~ 1" = ("~~~", 1, "") ∧
    extract_sort_key "-a" = ("~~", 999998, "-a") ∧
    keyLt (extract_sort_key "-a") (extract_sort_key "~~~ 1") = true ∧
    sort_items id ["~~~ 1", "-a"] = ["-a", "~~~ 1"] := by
  refine ⟨rfl, rfl, rfl, rfl⟩

/-- Claim C2, amended: `"1_intro.mp4"` sorts before `"2_basics.mp4"` and
both sort before `"no_number_here.txt"`; a dash-prefixed name sorts above
every name in the plain no-number group (group `"~~~"`) and below every
name with a LEADING number (group `"l__numbered"`).  (For word-number and
trailing-number names the relative order depends on the lowercased prefix
group, as the counterexample shows.) -/
theorem C2_ordering (a b : String) (ha : strIsPfx "-" a = true) :
    ((extract_sort_key b).1 = "~~~" →
      keyLt (extract_sort_key a) (extract_sort_key b) = true) ∧
    ((extract_sort_key b).1 = "l__numbered" →
      keyLt (extract_sort_key b) (extract_sort_key a) = true) ∧
    keyLt (extract_sort_key "1_intro.mp4") (extract_sort_key "2_basics.mp4") = true ∧
    keyLt (extract_sort_key "1_intro.mp4") (extract_sort_key "no_number_here.txt") = true ∧
    keyLt (extract_sort_key "2_basics.mp4") (extract_sort_key "no_number_here.txt") = true := by
  rw [extract_sort_key_dash ha]
  refine ⟨?_, ?_, rfl, rfl, rfl⟩
  · intro hb
    refine keyLt_of_fst ?_
    rw [hb]
    exact (by decide : strLtB "~~" "~~~" = true)
  · intro hb
    refine keyLt_of_fst ?_
    rw [hb]
    exact (by decide : strLtB "l__numbered" "~~" = true)

/-- Witness for C2_ordering at concrete inputs. -/
theorem C2_ordering_witness :
    keyLt (extract_sort_key "-dash") (extract_sort_key "plain") = true ∧
    keyLt (extract_sort_key "3_x.mp4") (extract_sort_key "-dash") = true := by
  refine ⟨?_, ?_⟩
  · exact (C2_ordering "-dash" "plain" (by decide)).1 (by decide)
  · exact (C2_ordering "-dash" "3_x.mp4" (by decide)).2.1 (by decide)

/- ───────────────────────────── claim C8 ───────────────────────────── -/

/-- Claim C8, counterexample.  On `"1.[2]x.mp4"` the code strips TWO
leading-number patterns (first `1.` by the bare pattern, then `[2]` by the
bracketed pattern) and returns `"X"`, while stripping exactly one
leading-number pattern, as the claim states, would return `"[2]x"`. -/
theorem C8_counterexample :
    get_clean_title "1.[2]x.mp4" = "X" ∧
    cleanTitleOnePattern "1.[2]x.mp4" = "[2]x" ∧
    get_clean_title "1.[2]x.mp4" ≠ cleanTitleOnePattern "1.[2]x.mp4" := by
  refine ⟨rfl, rfl, by decide⟩

/-- Claim C8, amended: `get_clean_title` strips the extension, then applies
each of the three leading-number patterns once in the order bare,
bracketed, parenthesized — so up to three leading-number patterns can be
stripped in sequence — then trims stray separator characters, upper-cases
a lowercase first character, and returns the original name when the result
is empty. -/
theorem C8_clean_title (filename : String) :
    get_clean_title filename = cleanTitleSequential filename := rfl

/- ───────────────────────────── claim C4 ───────────────────────────── -/

/-- Helper: the stream-loop body of `check_video_compatibility` agrees with
the video-stream-only characterization. -/
theorem streamNeedsReencode_eq (s : StreamInfo) :
    streamNeedsReencode s = badVideoStream s := by
  rw [streamNeedsReencode, badVideoStream]
  cases ht : s.codec_type == "video"
  · simp [ht]
  · simp only [ht, Bool.true_and, if_true]
    cases hc : lowerStr s.codec_name == "h264"
    · simp [hc]
    · simp only [hc, if_true]
      cases INCOMPATIBLE_H264_PROFILES.contains (lowerStr s.profile) <;>
        cases strContainsSub (lowerStr s.pix_fmt) "10le" <;>
        cases strContainsSub (lowerStr s.pix_fmt) "10be" <;> simp

/-- Claim C4, counterexample.  An MP4-family file with a compatible h264
video stream and an `ac3` AUDIO stream — a codec outside the browser-safe
set — is classified `compatible`, not `transcode`: the stream loop only
inspects streams whose `codec_type` is `"video"`, so audio codecs are
never checked. -/
theorem C4_counterexample :
    check_video_compatibility (some
      { format_name := "mov,mp4,m4a,3gp,3g2,mj2", duration := 0,
        streams := [{ codec_name := "h264", codec_type := "video",
                      profile := "high", pix_fmt := "yuv420p" },
                    { codec_name := "ac3", codec_type := "audio" }] }) = "compatible" ∧
    BROWSER_COMPATIBLE_CODECS.contains (lowerStr "ac3") = false := by
  exact ⟨rfl, rfl⟩

/-- Claim C4, amended: only VIDEO streams are checked — a video stream
whose codec is outside the browser-safe set, or h264 video with an
incompatible profile or a 10-bit pixel format, yields `transcode`
(audio-stream codecs are ignored); otherwise a non-MP4-family container
yields `remux`; otherwise `compatible`; a failed probe yields
`compatible`. -/
theorem C4_classification (d : ProbeData) :
    check_video_compatibility none = "compatible" ∧
    check_video_compatibility (some d) =
      (if d.streams.any badVideoStream then "transcode"
       else if COMPATIBLE_CONTAINERS.contains d.format_name then "compatible"
       else "remux") := by
  refine ⟨rfl, ?_⟩
  rw [check_video_compatibility,
    show streamNeedsReencode = badVideoStream from funext streamNeedsReencode_eq]
  cases d.streams.any badVideoStream <;>
    cases hc : COMPATIBLE_CONTAINERS.contains d.format_name <;> simp [hc]

/- ───────────────────────────── claim C3 ───────────────────────────── -/

/-- Helper: the startup scan either goes straight to `done` with nothing
pending, or stops at `waiting` with a non-empty pending list. -/
theorem scan_phases_cases (t : DirTree) (compat : String → String) :
    scan_videos_on_startup t compat = (["scanning", "done"], []) ∨
    (∃ tc, scan_videos_on_startup t compat = (["scanning", "waiting"], tc) ∧ tc ≠ []) := by
  rw [scan_videos_on_startup]
  cases hv : (collectVideoFiles t).isEmpty
  · simp only [Bool.false_eq_true, if_false]
    cases htc : ((collectVideoFiles t).map (fun f => (f, compat f))).filter
        (fun p => p.2 != "compatible") |>.isEmpty
    · refine Or.inr ⟨_, rfl, ?_⟩
      intro h
      rw [h] at htc
      simp at htc
    · exact Or.inl rfl
  · simp

/-- Claim C3, counterexample.  On a course directory with no video files
the phase history is `scanning, done`: the phase never passes through
`waiting`, refuting the claimed invariant that every run reaches `done`
via `waiting`.  Moreover the phase at server start is the empty string
(the module-level dict literal), not `scanning`, until the scan thread
runs. -/
theorem C3_counterexample :
    conversionPhaseTrace (.node [] .nil) (fun _ => "compatible") true = ["scanning", "done"] ∧
    "waiting" ∉ conversionPhaseTrace (.node [] .nil) (fun _ => "compatible") true ∧
    initial_conversion_phase ≠ "scanning" := by
  refine ⟨rfl, by decide, by decide⟩

/-- Claim C3, amended: every run follows `scanning → done` (nothing to
repair), `scanning → waiting` (repair pending, never confirmed), or
`scanning → waiting → converting → done`; when the user confirms, the run
completes as `scanning → done` or
`scanning → waiting → converting → done`.  The phase passes through
`waiting` exactly when incompatible files are found. -/
theorem C3_phases (t : DirTree) (compat : String → String) :
    (∀ triggered : Bool,
      conversionPhaseTrace t compat triggered = ["scanning", "done"] ∨
      conversionPhaseTrace t compat triggered = ["scanning", "waiting"] ∨
      conversionPhaseTrace t compat triggered = ["scanning", "waiting", "converting", "done"]) ∧
    (conversionPhaseTrace t compat true = ["scanning", "done"] ∨
      conversionPhaseTrace t compat true = ["scanning", "waiting", "converting", "done"]) := by
  have key : ∀ triggered : Bool,
      (conversionPhaseTrace t compat triggered = ["scanning", "done"]) ∨
      (triggered = false ∧ conversionPhaseTrace t compat triggered = ["scanning", "waiting"]) ∨
      (triggered = true ∧
        conversionPhaseTrace t compat triggered = ["scanning", "waiting", "converting", "done"]) := by
    intro triggered
    rcases scan_phases_cases t compat with h | ⟨tc, h, hne⟩
    · left
      rw [conversionPhaseTrace, h]
      simp
    · rw [conversionPhaseTrace, h]
      cases triggered
      · right; left
        exact ⟨rfl, rfl⟩
      · right; right
        refine ⟨rfl, ?_⟩
        have : run_conversion_phases tc = ["converting", "done"] := by
          rw [run_conversion_phases, if_neg]
          simp [hne]
        simp [this]
  constructor
  · intro triggered
    rcases key triggered with h | ⟨_, h⟩ | ⟨_, h⟩
    · exact Or.inl h
    · exact Or.inr (Or.inl h)
    · exact Or.inr (Or.inr h)
  · rcases key true with h | ⟨hf, _⟩ | ⟨_, h⟩
    · exact Or.inl h
    · exact absurd hf (by decide)
    · exact Or.inr h

/- ───────────────────────────── claim C5 ───────────────────────────── -/

/-- Helper: whatever the encode phase produced, the epilogue leaves the
original untouched on failure and installs a verified temp file on
success; the temp file never remains. -/
theorem finishConversion_cases (probe : List Nat → Option ProbeData)
    (orig : List Nat) (x : Option (Option (List Nat))) :
    ((finishConversion probe orig x).1 = false →
      (finishConversion probe orig x).2.1 = orig) ∧
    ((finishConversion probe orig x).1 = true →
      verify_converted probe orig (some (finishConversion probe orig x).2.1) = true) ∧
    (finishConversion probe orig x).2.2 = none := by
  match x with
  | none =>
    refine ⟨fun _ => rfl, fun h => ?_, rfl⟩
    simp [finishConversion] at h
  | some none =>
    refine ⟨fun _ => rfl, fun h => ?_, rfl⟩
    simp [finishConversion] at h
  | some (some t) =>
    rw [finishConversion]
    cases hv : verify_converted probe orig (some t)
    · simp [hv]
    · simp [hv]

/-- Claim C5, counterexample.  A remux whose output probes with duration
100 while the ORIGINAL probes with duration 0 (e.g. a failed duration
read on the original) is accepted and replaces the original, although the
duration difference is 100 s > 2 s: the check
`if orig_dur > 0 and abs(orig_dur - conv_dur) > 2.0` is skipped whenever
the original duration probes as 0. -/
theorem C5_counterexample :
    convert_single_video c5probe c5env [0] "remux" false = (true, [1], none) ∧
    durOf (c5probe [0]) = 0 ∧ durOf (c5probe [1]) = 100 ∧
    |durOf (c5probe [0]) - durOf (c5probe [1])| > 2 := by
  refine ⟨rfl, rfl, rfl, ?_⟩
  rw [show durOf (c5probe [0]) = 0 from rfl, show durOf (c5probe [1]) = 100 from rfl]
  norm_num

/-- Claim C5, amended: a conversion result reports failure only with the
original content unchanged, and success only with a temp file that passed
verification installed in its place; the temp file never survives the
call.  Verification accepts only an existing non-empty file that probes
successfully with at least one video stream and an MP4-family container,
and whose duration is within 2 seconds of the original WHEN the original
probes with a positive duration (a zero probed original duration skips
the duration check). -/
theorem C5_convert_safety (probe : List Nat → Option ProbeData) (env : EncoderEnv)
    (orig : List Nat) (mode : String) (has_nvenc : Bool) :
    ((convert_single_video probe env orig mode has_nvenc).1 = false →
      (convert_single_video probe env orig mode has_nvenc).2.1 = orig) ∧
    ((convert_single_video probe env orig mode has_nvenc).1 = true →
      verify_converted probe orig
        (some (convert_single_video probe env orig mode has_nvenc).2.1) = true) ∧
    (convert_single_video probe env orig mode has_nvenc).2.2 = none ∧
    (∀ t conv, verify_converted probe orig (some t) = true → probe t = some conv →
      t ≠ [] ∧ conv.streams.any (fun s => s.codec_type == "video") = true ∧
      COMPATIBLE_CONTAINERS.contains conv.format_name = true ∧
      (durOf (probe orig) > 0 → |durOf (probe orig) - conv.duration| ≤ 2)) ∧
    (∀ t, probe t = none → verify_converted probe orig (some t) = false) := by
  refine ⟨?_, ?_, ?_, ?_, ?_⟩
  · exact (finishConversion_cases probe orig _).1
  · exact (finishConversion_cases probe orig _).2.1
  · exact (finishConversion_cases probe orig _).2.2
  · intro t conv hv hp
    rw [verify_converted, hp] at hv
    dsimp only at hv
    split at hv
    · exact absurd hv (by simp)
    · rename_i hlen
      split at hv
      · exact absurd hv (by simp)
      · rename_i hany
        split at hv
        · exact absurd hv (by simp)
        · rename_i hdur
          split at hv
          · exact absurd hv (by simp)
          · rename_i hcont
            refine ⟨?_, ?_, ?_, ?_⟩
            · intro ht
              subst ht
              exact hlen rfl
            · simpa using hany
            · simpa using hcont
            · intro hpos
              push_neg at hdur
              exact hdur hpos
  · intro t hp
    rw [verify_converted, hp]
    dsimp only
    split
    · rfl
    · rfl

/-- Witness for C5_convert_safety at concrete inputs. -/
theorem C5_convert_safety_witness :
    (convert_single_video (fun _ => none) ⟨⟨1, none⟩, ⟨1, none⟩, ⟨1, none⟩⟩ [5] "remux" false).2.1
      = [5] ∧
    COMPATIBLE_CONTAINERS.contains c5convData.format_name = true := by
  constructor
  · exact (C5_convert_safety (fun _ => none) ⟨⟨1, none⟩, ⟨1, none⟩, ⟨1, none⟩⟩ [5] "remux" false).1
      (by rfl)
  · exact ((C5_convert_safety c5probe c5env [0] "remux" false).2.2.2.1 [1] c5convData
      (by rfl) (by rfl)).2.2.1

/- ───────────────────────────── claim C7 ───────────────────────────── -/

/-- Claim C7, counterexample.  A GET `/media/` request for a 100-byte file
with `Range: bytes=150-` produces status 416 with NO headers beyond the
standard error page — in particular no `Content-Range: bytes */100`
advertisement of the true total length, refuting the claim; nothing is
streamed. -/
theorem C7_counterexample :
    (serveMediaRange 100 "video/mp4" "lm" (some "bytes=150-")).1.status = 416 ∧
    (serveMediaRange 100 "video/mp4" "lm" (some "bytes=150-")).1.headers = [] ∧
    (serveMediaRange 100 "video/mp4" "lm" (some "bytes=150-")).2 = none := by
  refine ⟨rfl, rfl, rfl⟩

/-- Claim C7, amended: on the `/media/` GET path a parsed start offset at
or past the file length yields a bare 416 response with no headers and no
bytes streamed; the `Content-Range: bytes */<total length>` advertisement
is only produced by the generic `send_head` range handler, which is not on
the `/media/` GET path. -/
theorem C7_range_not_satisfiable (file_size : Nat) (ctype lastmod h : String)
    (start : Nat) (endo : Option Nat)
    (hparse : searchBytesRange h.data = some (start, endo))
    (hge : start ≥ file_size) :
    (serveMediaRange file_size ctype lastmod (some h)).1 =
      { status := 416, headers := [] } ∧
    (serveMediaRange file_size ctype lastmod (some h)).2 = none ∧
    sendHeadRange file_size ctype lastmod (some h) =
      { status := 416, headers := [("Content-Range", "bytes */" ++ natStr file_size)] } := by
  rw [serveMediaRange, sendHeadRange, hparse]
  dsimp only
  rw [if_pos hge]
  rw [if_pos hge]
  exact ⟨rfl, rfl, rfl⟩

/-- Witness for C7_range_not_satisfiable at concrete inputs. -/
theorem C7_range_not_satisfiable_witness :
    (serveMediaRange 100 "t" "lm" (some "bytes=200-300")).1 =
      { status := 416, headers := [] } ∧
    sendHeadRange 100 "t" "lm" (some "bytes=200-300") =
      { status := 416, headers := [("Content-Range", "bytes */100")] } := by
  have h := C7_range_not_satisfiable 100 "t" "lm" "bytes=200-300" 200 (some 300)
    (by rfl) (by norm_num)
  exact ⟨h.1, h.2.2⟩

/- ───────────────────────────── claim C6 ───────────────────────────── -/

/-- Claim C6, counterexample.  With course root `/data/course`, the request
path `../coursesecret/x` resolves to `/data/coursesecret/x` — a path
OUTSIDE the course root (its segments do not extend the root segments) —
yet the string-prefix check accepts it, because the string
`/data/coursesecret/x` starts with the string `/data/course`; the file is
served, not rejected with 403. -/
theorem C6_counterexample :
    serve_media_file_path ["data", "course"] "../coursesecret/x"
        (fun _ => true) (fun _ => true) = .served "/data/coursesecret/x" ∧
    resolveSegs (joinDecoded ["data", "course"] "../coursesecret/x") =
      ["data", "coursesecret", "x"] ∧
    listIsPfx ["data", "course"] ["data", "coursesecret", "x"] = false := by
  refine ⟨rfl, rfl, rfl⟩

/-- Claim C6, amended: after resolution the request is rejected with 403
(no bytes served) exactly when the rendered resolved path does not START
WITH the rendered resolved course root as a string; a path whose
resolution leaves the course root is rejected unless its rendered string
happens to extend the root string (a sibling directory whose name has the
root as a prefix), in which case it is served. -/
theorem C6_confinement (rootSegs : List String) (decoded : String)
    (exists_ isFile : String → Bool) :
    (strIsPfx (renderAbs (resolveSegs rootSegs))
        (renderAbs (resolveSegs (joinDecoded rootSegs decoded))) = false →
      serve_media_file_path rootSegs decoded exists_ isFile = .forbidden) ∧
    (∀ p, serve_media_file_path rootSegs decoded exists_ isFile = .served p →
      strIsPfx (renderAbs (resolveSegs rootSegs)) p = true ∧
      p = renderAbs (resolveSegs (joinDecoded rootSegs decoded)) ∧
      exists_ p = true ∧ isFile p = true) := by
  rw [serve_media_file_path]
  cases hpf : strIsPfx (renderAbs (resolveSegs rootSegs))
      (renderAbs (resolveSegs (joinDecoded rootSegs decoded)))
  · constructor
    · intro _
      rfl
    · intro p hp
      simp at hp
  · constructor
    · intro hcontra
      cases hcontra
    · intro p hp
      simp only [Bool.not_true, Bool.false_eq_true, if_false] at hp
      cases hex : exists_ (renderAbs (resolveSegs (joinDecoded rootSegs decoded)))
      · rw [hex] at hp
        simp at hp
      · rw [hex] at hp
        cases hisf : isFile (renderAbs (resolveSegs (joinDecoded rootSegs decoded)))
        · rw [hisf] at hp
          simp at hp
        · rw [hisf] at hp
          simp only [Bool.not_true, Bool.false_eq_true, if_false] at hp
          cases hp
          exact ⟨hpf, rfl, hex, hisf⟩

/-- Witness for C6_confinement at concrete inputs: an absolute traversal to
`/etc/passwd` is rejected, and a benign in-root path is served with all
checks passed. -/
theorem C6_confinement_witness :
    serve_media_file_path ["data", "course"] "/etc/passwd"
      (fun _ => true) (fun _ => true) = .forbidden ∧
    strIsPfx (renderAbs (resolveSegs ["data", "course"]))
      (renderAbs (resolveSegs (joinDecoded ["data", "course"] "ch1/a.mp4"))) = true := by
  constructor
  · exact (C6_confinement ["data", "course"] "/etc/passwd" (fun _ => true) (fun _ => true)).1
      (by rfl)
  · exact ((C6_confinement ["data", "course"] "ch1/a.mp4" (fun _ => true) (fun _ => true)).2
      (renderAbs (resolveSegs (joinDecoded ["data", "course"] "ch1/a.mp4"))) (by rfl)).1

/- ───────────────── induction principles for directory trees ───────────────── -/

theorem subDirs_induction {Q : SubDirs → Prop} (hnil : Q .nil)
    (hcons : ∀ n t rest, Q rest → Q (.cons n t rest)) : ∀ s, Q s :=
  fun s => @SubDirs.rec (fun _ => True) Q (fun _ _ _ => trivial) hnil
    (fun n t r _ ih => hcons n t r ih) s

theorem dirTree_mutual_induction {P : DirTree → Prop} {Q : SubDirs → Prop}
    (hnode : ∀ files subs, Q subs → P (.node files subs))
    (hnil : Q .nil)
    (hcons : ∀ n t rest, P t → Q rest → Q (.cons n t rest)) :
    (∀ t, P t) ∧ (∀ s, Q s) :=
  ⟨fun t => @DirTree.rec P Q hnode hnil hcons t,
   fun s => @SubDirs.rec P Q hnode hnil hcons s⟩

/- ───────────────────── scanner structure lemmas ───────────────────── -/

/-- Each unskipped subfolder contributes its scan result to the
`scanSubResults` list. -/
theorem scanSubResults_mem {relPath : List String} {name : String} {F : DirTree}
    {r : ScanResult} (hF : scan_folder (relPath ++ [name]) F = .ok r)
    (hskip : (strIsPfx "." name || IGNORE_FOLDERS.contains name) = false) :
    ∀ subs : SubDirs, ∀ res, (name, F) ∈ subsToList subs →
      scanSubResults relPath subs = .ok res → (name, r) ∈ res := by
  refine subDirs_induction ?_ ?_
  · intro res hmem _
    simp [subsToList] at hmem
  · intro n t rest ih res hmem hok
    simp only [subsToList, List.mem_cons] at hmem
    simp only [scanSubResults] at hok
    rcases hmem with heq | hmem
    · injection heq with h1 h2
      subst h1
      subst h2
      rw [hskip] at hok
      simp only [Bool.false_eq_true, if_false] at hok
      rw [hF] at hok
      dsimp only at hok
      cases hrest : scanSubResults relPath rest with
      | error e =>
        rw [hrest] at hok
        simp at hok
      | ok rs =>
        rw [hrest] at hok
        dsimp only at hok
        injection hok with h
        subst h
        exact List.mem_cons_self _ _
    · cases hc : (strIsPfx "." n || IGNORE_FOLDERS.contains n) with
      | true =>
        rw [hc] at hok
        simp only [if_true] at hok
        exact ih res hmem hok
      | false =>
        rw [hc] at hok
        simp only [Bool.false_eq_true, if_false] at hok
        cases hsc : scan_folder (relPath ++ [n]) t with
        | error e =>
          rw [hsc] at hok
          simp at hok
        | ok r1 =>
          rw [hsc] at hok
          dsimp only at hok
          cases hrest : scanSubResults relPath rest with
          | error e =>
            rw [hrest] at hok
            simp at hok
          | ok rs =>
            rw [hrest] at hok
            dsimp only at hok
            injection hok with h
            subst h
            exact List.mem_cons_of_mem _ (ih rs hmem hrest)

/-- The names of the `scanSubResults` list form a sublist of the subfolder
names, so distinct subfolder names stay distinct. -/
theorem scanSubResults_names_sublist {relPath : List String} :
    ∀ subs : SubDirs, ∀ res, scanSubResults relPath subs = .ok res →
      List.Sublist (res.map Prod.fst) ((subsToList subs).map Prod.fst) := by
  refine subDirs_induction ?_ ?_
  · intro res hok
    simp only [scanSubResults] at hok
    injection hok with h
    subst h
    simp [subsToList]
  · intro n t rest ih res hok
    simp only [scanSubResults] at hok
    cases hc : (strIsPfx "." n || IGNORE_FOLDERS.contains n) with
    | true =>
      rw [hc] at hok
      simp only [if_true] at hok
      simp only [subsToList, List.map_cons]
      exact (ih res hok).cons n
    | false =>
      rw [hc] at hok
      simp only [Bool.false_eq_true, if_false] at hok
      cases hsc : scan_folder (relPath ++ [n]) t with
      | error e =>
        rw [hsc] at hok
        simp at hok
      | ok r1 =>
        rw [hsc] at hok
        dsimp only at hok
        cases hrest : scanSubResults relPath rest with
        | error e =>
          rw [hrest] at hok
          simp at hok
        | ok rs =>
          rw [hrest] at hok
          dsimp only at hok
          injection hok with h
          subst h
          simp only [subsToList, List.map_cons]
          exact (ih rs hrest).cons₂ n

/-- Adding a folder result in front never removes promoted videos or
promoted documents. -/
theorem foldChildren_superset (relPath : List String) (hd : String × ScanResult)
    (rest : List (String × ScanResult)) :
    (∀ x ∈ (foldChildren relPath rest).1, x ∈ (foldChildren relPath (hd :: rest)).1) ∧
    (∀ d ∈ (foldChildren relPath rest).2.1, d ∈ (foldChildren relPath (hd :: rest)).2.1) := by
  rcases hd with ⟨n, r⟩
  simp only [foldChildren]
  split
  · exact ⟨fun x hx => List.mem_append_right _ hx,
      fun d hd2 => List.mem_append_right _ hd2⟩
  · split
    · exact ⟨fun x hx => hx, fun d hd2 => hd2⟩
    · split
      · exact ⟨fun x hx => hx, fun d hd2 => hd2⟩
      · exact ⟨fun x hx => hx, fun d hd2 => hd2⟩

/-- A folder result with exactly one video and no child chapters is
promoted: the video appears in the parent videos with the folder name as
title and the folder sort key as order, and its documents all appear among
the parent documents. -/
theorem foldChildren_promotes {relPath : List String} {name : String} {v : Video}
    {docsF : List Document} :
    ∀ results : List (String × ScanResult), (name, ([v], docsF, [])) ∈ results →
      ({ v with order := (extract_sort_key name).2.1, title := name } ∈
        (foldChildren relPath results).1) ∧
      (∀ d ∈ docsF, d ∈ (foldChildren relPath results).2.1) := by
  intro results
  induction results with
  | nil => intro h; cases h
  | cons hd rest ih =>
    intro hmem
    rcases List.mem_cons.mp hmem with heq | hmem2
    · subst heq
      simp only [foldChildren]
      rw [if_pos (show (([v].length == 1 && ([] : List Chapter).length == 0) = true) from rfl)]
      exact ⟨List.mem_append_left _ (List.mem_singleton.mpr rfl),
        fun d hd2 => List.mem_append_left _ hd2⟩
    · have h := ih hmem2
      have hsup := foldChildren_superset relPath hd rest
      exact ⟨hsup.1 _ h.1, fun d hd2 => hsup.2 d (h.2 d hd2)⟩

/-- Every chapter produced by the subfolder loop comes from an entry that
failed the wrapper condition, and carries that entry name as its title. -/
theorem foldChildren_chapter_src {relPath : List String} {c : Chapter} :
    ∀ results : List (String × ScanResult), c ∈ (foldChildren relPath results).2.2 →
      ∃ p ∈ results, c.title = p.1 ∧
        (p.2.1.length == 1 && p.2.2.2.length == 0) = false := by
  intro results
  induction results with
  | nil =>
    intro h
    simp [foldChildren] at h
  | cons hd rest ih =>
    intro hc
    rcases hd with ⟨n, r⟩
    simp only [foldChildren] at hc
    by_cases h1 : (r.1.length == 1 && r.2.2.length == 0) = true
    · rw [if_pos h1] at hc
      obtain ⟨p, hp, h⟩ := ih hc
      exact ⟨p, List.mem_cons_of_mem _ hp, h⟩
    · rw [if_neg h1] at hc
      have h1f : (r.1.length == 1 && r.2.2.length == 0) = false := by
        simpa using h1
      by_cases h2 : has_videos_recursive r.1 (.ofList r.2.2) = true
      · rw [if_pos h2] at hc
        rcases List.mem_cons.mp hc with heq | hc2
        · exact ⟨(n, r), List.mem_cons_self _ _, by rw [heq]; rfl, h1f⟩
        · obtain ⟨p, hp, h⟩ := ih hc2
          exact ⟨p, List.mem_cons_of_mem _ hp, h⟩
      · rw [if_neg h2] at hc
        by_cases h3 : (!r.2.1.isEmpty || !r.2.2.isEmpty) = true
        · rw [if_pos h3] at hc
          rcases List.mem_cons.mp hc with heq | hc2
          · exact ⟨(n, r), List.mem_cons_self _ _, by rw [heq]; rfl, h1f⟩
          · obtain ⟨p, hp, h⟩ := ih hc2
            exact ⟨p, List.mem_cons_of_mem _ hp, h⟩
        · rw [if_neg h3] at hc
          obtain ⟨p, hp, h⟩ := ih hc
          exact ⟨p, List.mem_cons_of_mem _ hp, h⟩

/-- Distinct first components identify pairs. -/
theorem eq_of_fst_eq_of_nodup {α β : Type} {l : List (α × β)}
    (hnd : (l.map Prod.fst).Nodup) {a b : α × β}
    (ha : a ∈ l) (hb : b ∈ l) (hfst : a.1 = b.1) : a = b := by
  induction l with
  | nil => cases ha
  | cons hd tl ih =>
    simp only [List.map_cons, List.nodup_cons] at hnd
    rcases List.mem_cons.mp ha with rfl | ha2
    · rcases List.mem_cons.mp hb with rfl | hb2
      · rfl
      · exact absurd (hfst ▸ List.mem_map_of_mem Prod.fst hb2) hnd.1
    · rcases List.mem_cons.mp hb with rfl | hb2
      · exact absurd (hfst ▸ List.mem_map_of_mem Prod.fst ha2) hnd.1
      · exact ih hnd.2 ha2 hb2

/- ───────────────────────────── claim C1 ───────────────────────────── -/

/-- Claim C1, counterexample.  The folder `F` holds exactly one video file
(`1_lesson.mp4`) and one subfolder `docs` with NO videos (only
`notes.pdf`) — so `F` has no subfolder with videos — yet scanning the
parent yields `F` as a chapter and promotes nothing: the wrapper
condition of the code requires no CHILD CHAPTERS at all, and the
document-only subfolder becomes a chapter, blocking the promotion. -/
theorem C1_counterexample :
    scannerVideoFiles c1F = ["1_lesson.mp4"] ∧
    scannerVideoFiles c1D = [] ∧
    (match scan_folder [] c1parent with
     | .ok (vids, _, chs) =>
       vids.isEmpty && chs.length == 1 && chs.all (fun c => c.title == "F")
     | .error _ => false) = true := by
  refine ⟨rfl, rfl, rfl⟩

/-- Claim C1, amended: a subfolder whose scan yields exactly one video and
NO CHILD CHAPTERS (none at all — a document-only child chapter already
disqualifies it) is flattened: the video is promoted into the parent video
list with title equal to the folder name and order equal to the folder
numeric sort key, its documents are promoted too, and (for distinct
subfolder names) no chapter with that folder name appears in the parent
chapter list. -/
theorem C1_wrapper_promotion (relPath : List String) (files : List FileInfo)
    (subs : SubDirs) (name : String) (F : DirTree) (v : Video) (docsF : List Document)
    (vids : List Video) (docs : List Document) (chs : List Chapter)
    (hmem : (name, F) ∈ subsToList subs)
    (hskip : (strIsPfx "." name || IGNORE_FOLDERS.contains name) = false)
    (hF : scan_folder (relPath ++ [name]) F = .ok ([v], docsF, []))
    (hP : scan_folder relPath (.node files subs) = .ok (vids, docs, chs)) :
    ({ v with order := (extract_sort_key name).2.1, title := name } ∈ vids) ∧
    (∀ d ∈ docsF, d ∈ docs) ∧
    (((subsToList subs).map Prod.fst).Nodup → ∀ c ∈ chs, c.title ≠ name) := by
  simp only [scan_folder] at hP
  split at hP
  · simp at hP
  · rename_i childResults hsr
    split at hP
    · simp at hP
    · rename_i fres hcf
      injection hP with h
      injection h with h1 h23
      injection h23 with h2 h3
      subst h1
      subst h2
      subst h3
      have hmemCR : (name, ([v], docsF, [])) ∈ childResults :=
        scanSubResults_mem hF hskip subs childResults hmem hsr
      have hmemSorted : (name, ([v], docsF, [])) ∈ sort_items Prod.fst childResults :=
        mem_sort_items.mpr hmemCR
      have hprom :=
        @foldChildren_promotes relPath name v docsF (sort_items Prod.fst childResults) hmemSorted
      refine ⟨?_, ?_, ?_⟩
      · exact mem_sort_items.mpr (List.mem_append_right _ hprom.1)
      · intro d hd
        exact List.mem_append_right _ (hprom.2 d hd)
      · intro hnd c hc htitle
        have hcF : c ∈ (foldChildren relPath (sort_items Prod.fst childResults)).2.2 :=
          mem_sort_items.mp hc
        obtain ⟨p, hp, htit, hwrap⟩ := foldChildren_chapter_src _ hcF
        have hpCR : p ∈ childResults := mem_sort_items.mp hp
        have hndCR : (childResults.map Prod.fst).Nodup :=
          List.Nodup.sublist (scanSubResults_names_sublist subs childResults hsr) hnd
        have hpe : p = (name, ([v], docsF, [])) :=
          eq_of_fst_eq_of_nodup hndCR hpCR hmemCR (htit.symm.trans htitle)
        rw [hpe] at hwrap
        simp at hwrap

/-- Witness for C1_wrapper_promotion at concrete inputs: the wrapper folder
`02 Wrap` with a single video is flattened into the parent, the video
carrying the folder name as title and order 2 from the folder sort key. -/
theorem C1_wrapper_promotion_witness :
    scan_folder [] c1wParent = .ok (c1wVids, [], []) ∧
    ({ title := "02 Wrap", file := "a.mp4", path := "/media/02%20Wrap/a.mp4",
       order := 2 } : Video) ∈ c1wVids ∧
    (∀ c ∈ ([] : List Chapter), c.title ≠ "02 Wrap") := by
  refine ⟨rfl, ?_, ?_⟩
  · exact (C1_wrapper_promotion [] [] (.cons "02 Wrap" c1wF .nil) "02 Wrap" c1wF
      c1wVideo [] c1wVids [] [] (List.Mem.head _) (by decide) (by rfl) (by rfl)).1
  · exact (C1_wrapper_promotion [] [] (.cons "02 Wrap" c1wF .nil) "02 Wrap" c1wF
      c1wVideo [] c1wVids [] [] (List.Mem.head _) (by decide) (by rfl) (by rfl)).2.2
      (by decide)

/- ───────────────────────────── claim C10 ───────────────────────────── -/

/-- Claim C10, confirmed.  `.docx` is in the scanner document-extension
set, yet `get_document_type ".docx"` evaluates the attribute
`DocumentType.DOCX`, which the `DocumentType` enumeration does not define,
so the lookup raises and a directory containing any `.docx` file makes the
scan raise instead of returning a playlist. -/
theorem C10_docx_scan_raises :
    DOCUMENT_EXTENSIONS.contains ".docx" = true ∧
    get_document_type ".docx" =
      .error "AttributeError: DocumentType has no attribute DOCX" ∧
    scan_folder [] (.node [{ name := "a.docx" }] .nil) =
      .error "AttributeError: DocumentType has no attribute DOCX" := by
  refine ⟨rfl, rfl, rfl⟩

/- ───────────────────── decimal string lemmas ───────────────────── -/

theorem digitChar10_isDigit (d : Nat) : (digitChar10 d).isDigit = true := by
  unfold digitChar10
  split <;> decide

theorem digitChar10_val {d : Nat} (h : d < 10) : (digitChar10 d).toNat - 48 = d := by
  interval_cases d <;> decide

theorem natOfDigits_append (xs : List Char) (c : Char) :
    natOfDigits (xs ++ [c]) = natOfDigits xs * 10 + (c.toNat - 48) := by
  simp [natOfDigits, List.foldl_append]

theorem natDigitsAux_spec :
    ∀ fuel n, n < 10 ^ fuel →
      natOfDigits (natDigitsAux fuel n) = n ∧
      (∀ c ∈ natDigitsAux fuel n, c.isDigit = true) := by
  intro fuel
  induction fuel with
  | zero =>
    intro n h
    simp only [pow_zero, Nat.lt_one_iff] at h
    subst h
    exact ⟨rfl, by intro c hc; cases hc⟩
  | succ f ih =>
    intro n h
    rw [natDigitsAux]
    by_cases h10 : n < 10
    · rw [if_pos h10]
      refine ⟨?_, ?_⟩
      · show natOfDigits [digitChar10 n] = n
        have : natOfDigits [digitChar10 n] = (digitChar10 n).toNat - 48 := by
          simp [natOfDigits]
        rw [this, digitChar10_val h10]
      · intro c hc
        rw [List.mem_singleton] at hc
        subst hc
        exact digitChar10_isDigit n
    · rw [if_neg h10]
      have hdiv : n / 10 < 10 ^ f := by
        rw [Nat.div_lt_iff_lt_mul (by norm_num)]
        calc n < 10 ^ (f + 1) := h
        _ = 10 ^ f * 10 := by ring
      obtain ⟨ih1, ih2⟩ := ih (n / 10) hdiv
      refine ⟨?_, ?_⟩
      · rw [natOfDigits_append, ih1, digitChar10_val (Nat.mod_lt n (by norm_num))]
        omega
      · intro c hc
        rcases List.mem_append.mp hc with h1 | h2
        · exact ih2 c h1
        · rw [List.mem_singleton] at h2
          subst h2
          exact digitChar10_isDigit _

theorem natStr_roundtrip (n : Nat) : natOfDigits (natStr n).data = n :=
  (natDigitsAux_spec (n + 1) n
    (lt_of_lt_of_le (Nat.lt_pow_self (by norm_num) n)
      (Nat.pow_le_pow_right (by norm_num) (Nat.le_succ n)))).1

theorem natStr_digits (n : Nat) : ∀ c ∈ (natStr n).data, c.isDigit = true :=
  (natDigitsAux_spec (n + 1) n
    (lt_of_lt_of_le (Nat.lt_pow_self (by norm_num) n)
      (Nat.pow_le_pow_right (by norm_num) (Nat.le_succ n)))).2

theorem natStr_inj {a b : Nat} (h : (natStr a).data = (natStr b).data) : a = b := by
  have ha := natStr_roundtrip a
  rw [h, natStr_roundtrip b] at ha
  exact ha.symm

/- ───────────────────── digit-boundary cancellation ───────────────────── -/

/-- A maximal digit run followed by a non-digit (or nothing) is uniquely
delimited: two such decompositions of the same character list agree. -/
theorem digitRun_cancel :
    ∀ (d1 d2 x y : List Char),
      (∀ c ∈ d1, c.isDigit = true) → (∀ c ∈ d2, c.isDigit = true) →
      (x = [] ∨ ∃ c t, x = c :: t ∧ c.isDigit = false) →
      (y = [] ∨ ∃ c t, y = c :: t ∧ c.isDigit = false) →
      d1 ++ x = d2 ++ y → d1 = d2 ∧ x = y := by
  intro d1
  induction d1 with
  | nil =>
    intro d2 x y _ hd2 hx _ heq
    cases d2 with
    | nil => exact ⟨rfl, heq⟩
    | cons b bs =>
      rcases hx with rfl | ⟨c, t, rfl, hc⟩
      · cases heq
      · simp only [List.nil_append, List.cons_append, List.cons.injEq] at heq
        have : c.isDigit = true := heq.1 ▸ hd2 b (List.mem_cons_self _ _)
        rw [hc] at this
        cases this
  | cons a as ih =>
    intro d2 x y hd1 hd2 hx hy heq
    cases d2 with
    | nil =>
      rcases hy with rfl | ⟨c, t, rfl, hc⟩
      · cases heq
      · simp only [List.cons_append, List.nil_append, List.cons.injEq] at heq
        have : c.isDigit = true := heq.1 ▸ hd1 a (List.mem_cons_self _ _)
        rw [hc] at this
        cases this
    | cons b bs =>
      simp only [List.cons_append, List.cons.injEq] at heq
      obtain ⟨h1, h2⟩ :=
        ih bs x y (fun c hc => hd1 c (List.mem_cons_of_mem _ hc))
          (fun c hc => hd2 c (List.mem_cons_of_mem _ hc)) hx hy heq.2
      exact ⟨by rw [heq.1, h1], h2⟩

/- ───────────────────── MD5 digest shape and pigeonhole ───────────────────── -/

theorem leVal_lt : ∀ l : List Nat, (∀ b ∈ l, b < 256) → leVal l < 256 ^ l.length := by
  intro l
  induction l with
  | nil => intro _; simp [leVal]
  | cons b rest ih =>
    intro h
    have h1 : b < 256 := h b (List.mem_cons_self _ _)
    have h2 := ih (fun x hx => h x (List.mem_cons_of_mem _ hx))
    simp only [leVal, List.length_cons, pow_succ]
    omega

theorem leVal_inj : ∀ l1 l2 : List Nat, l1.length = l2.length →
    (∀ b ∈ l1, b < 256) → (∀ b ∈ l2, b < 256) → leVal l1 = leVal l2 → l1 = l2 := by
  intro l1
  induction l1 with
  | nil =>
    intro l2 hlen _ _ _
    cases l2 with
    | nil => rfl
    | cons c cs => cases hlen
  | cons b bs ih =>
    intro l2 hlen h1 h2 hv
    cases l2 with
    | nil => cases hlen
    | cons c cs =>
      simp only [leVal] at hv
      have hb : b < 256 := h1 b (List.mem_cons_self _ _)
      have hc : c < 256 := h2 c (List.mem_cons_self _ _)
      have hbc : b = c := by omega
      have hvs : leVal bs = leVal cs := by omega
      rw [hbc, ih cs (by simpa using hlen) (fun x hx => h1 x (List.mem_cons_of_mem _ hx))
        (fun x hx => h2 x (List.mem_cons_of_mem _ hx)) hvs]

theorem md5DigestBytes_bound (bytes : List Nat) :
    (∀ b ∈ md5DigestBytes bytes, b < 256) ∧ (md5DigestBytes bytes).length = 16 := by
  constructor
  · intro b hb
    simp only [md5DigestBytes, wordLEBytes, List.mem_append, List.mem_cons,
      List.not_mem_nil, or_false] at hb
    rcases hb with (((rfl | rfl | rfl | rfl) | (rfl | rfl | rfl | rfl)) |
      (rfl | rfl | rfl | rfl)) | (rfl | rfl | rfl | rfl) <;> omega
  · simp [md5DigestBytes, wordLEBytes]

theorem md5hex_congr {b1 b2 : List Nat} (h : md5nat b1 = md5nat b2) :
    md5hex b1 = md5hex b2 := by
  have h1 := md5DigestBytes_bound b1
  have h2 := md5DigestBytes_bound b2
  have hd : md5DigestBytes b1 = md5DigestBytes b2 :=
    leVal_inj _ _ (by rw [h1.2, h2.2]) h1.1 h2.1 h
  rw [md5hex, md5hex, hd]

lemma exists_collision_of_bound (f : Nat → Nat) (N : Nat) (hb : ∀ n, f n < N) :
    ∃ a b : Nat, a ≠ b ∧ f a = f b := by
  obtain ⟨a, b, hne, heq⟩ :=
    Finite.exists_ne_map_eq_of_infinite (fun n : Nat => (⟨f n, hb n⟩ : Fin N))
  exact ⟨a, b, hne, congrArg Fin.val heq⟩

/- ───────────────────────────── claim C9 ───────────────────────────── -/

/-- Claim C9, counterexample (proof of the negation of the sensitivity
part).  The MD5 digest has only `256^16` possible values while the
single-file trees `c9tree s` take infinitely many sizes, so by the
pigeonhole principle two different sizes — the same tree with one file
size changed — share a fingerprint.  The claim as stated (any size change
changes the fingerprint) is therefore false, though no concrete collision
is known: only the hash INPUT is always changed. -/
theorem C9_counterexample :
    ¬ (∀ s1 s2 : Nat, s1 ≠ s2 →
        generate_structure_hash (c9tree s1) ≠ generate_structure_hash (c9tree s2)) := by
  intro hinj
  have hbound : ∀ n : Nat, md5nat (utf8Bytes (structureContent (c9tree n))) < 256 ^ 16 := by
    intro n
    have h := md5DigestBytes_bound (utf8Bytes (structureContent (c9tree n)))
    have hlt := leVal_lt _ h.1
    rw [h.2] at hlt
    exact hlt
  obtain ⟨a, b, hne, heq⟩ :=
    exists_collision_of_bound
      (fun n => md5nat (utf8Bytes (structureContent (c9tree n)))) (256 ^ 16) hbound
  exact hinj a b hne (md5hex_congr heq)

/- ───────────────────── joined-content decomposition ───────────────────── -/

theorem intercalate_go_data (s : String) :
    ∀ (l : List String) (acc : String),
      (String.intercalate.go acc s l).data
        = acc.data ++ l.flatMap (fun x => s.data ++ x.data) := by
  intro l
  induction l with
  | nil => intro acc; simp [String.intercalate.go]
  | cons a as ih =>
    intro acc
    rw [String.intercalate.go, ih]
    simp

theorem intercalate_data_cons (a : String) (l : List String) :
    (String.intercalate "\n" (a :: l)).data
      = a.data ++ l.flatMap (fun x => '\n' :: x.data) := by
  rw [String.intercalate, intercalate_go_data]
  rfl

/-- The character list of the joined hash data, split at one line. -/
theorem intercalate_split_data (P : List String) (l : String) (R : List String) :
    (String.intercalate "\n" (P ++ l :: R)).data
      = (match P with
         | [] => ([] : List Char)
         | p :: ps => p.data ++ ps.flatMap (fun x => '\n' :: x.data) ++ ['\n'])
        ++ l.data ++ R.flatMap (fun x => '\n' :: x.data) := by
  cases P with
  | nil => simp [intercalate_data_cons]
  | cons p ps =>
    rw [List.cons_append, intercalate_data_cons]
    simp [List.flatMap_append]

/-- Two hash-data line lists that agree except on one line, whose stat
fields differ, join to different strings. -/
theorem content_ne_of_split (P R R2 : List String) (pre : List Char)
    (s m ns nm : Nat) (hne : (s, m) ≠ (ns, nm)) :
    String.intercalate "\n"
        (P ++ (⟨pre ++ (natStr ns).data ++ '|' :: (natStr nm).data⟩ : String) :: R2)
      ≠ String.intercalate "\n"
        (P ++ (⟨pre ++ (natStr s).data ++ '|' :: (natStr m).data⟩ : String) :: R) := by
  intro h
  have hd := congrArg String.data h
  rw [intercalate_split_data, intercalate_split_data] at hd
  simp only [List.append_assoc, List.append_cancel_left_eq] at hd
  have hflat : ∀ X : List String,
      X.flatMap (fun x => '\n' :: x.data) = [] ∨
        ∃ c t, X.flatMap (fun x => '\n' :: x.data) = c :: t ∧ c.isDigit = false := by
    intro X
    cases X with
    | nil => exact Or.inl rfl
    | cons x xs =>
      exact Or.inr ⟨'\n', x.data ++ xs.flatMap (fun x => '\n' :: x.data), by simp, by decide⟩
  have hx : ('|' :: ((natStr nm).data ++ R2.flatMap (fun x => '\n' :: x.data)) = [] ∨
      ∃ c t, '|' :: ((natStr nm).data ++ R2.flatMap (fun x => '\n' :: x.data)) = c :: t ∧
        c.isDigit = false) :=
    Or.inr ⟨'|', _, rfl, by decide⟩
  have hy : ('|' :: ((natStr m).data ++ R.flatMap (fun x => '\n' :: x.data)) = [] ∨
      ∃ c t, '|' :: ((natStr m).data ++ R.flatMap (fun x => '\n' :: x.data)) = c :: t ∧
        c.isDigit = false) :=
    Or.inr ⟨'|', _, rfl, by decide⟩
  have hd1 : (natStr ns).data ++
      ('|' :: ((natStr nm).data ++ R2.flatMap (fun x => '\n' :: x.data)))
        = (natStr s).data ++
      ('|' :: ((natStr m).data ++ R.flatMap (fun x => '\n' :: x.data))) := by
    simpa using hd
  obtain ⟨hs1, ht1⟩ :=
    digitRun_cancel _ _ _ _ (natStr_digits ns) (natStr_digits s) hx hy hd1
  have ht1' : (natStr nm).data ++ R2.flatMap (fun x => '\n' :: x.data)
      = (natStr m).data ++ R.flatMap (fun x => '\n' :: x.data) := by
    injection ht1
  obtain ⟨hs2, _⟩ :=
    digitRun_cancel _ _ _ _ (natStr_digits nm) (natStr_digits m)
      (hflat R2) (hflat R) ht1'
  exact hne (by rw [natStr_inj hs1.symm, natStr_inj hs2.symm])

/- ───────────── stable sort when one payload changes ───────────── -/

/-- Inserting a further element preserves a one-payload-difference
decomposition: the comparator reads only the name component, which the two
lists share. -/
theorem insertSorted_keyed_rel (d : String) (L L2 : List String)
    (y : String × List String) :
    ∀ V1 V2 : List (String × List String),
      ∃ W1 W2 : List (String × List String),
        insertSorted (fun a b => strLtB a.1 b.1) y (V1 ++ (d, L) :: V2)
          = W1 ++ (d, L) :: W2 ∧
        insertSorted (fun a b => strLtB a.1 b.1) y (V1 ++ (d, L2) :: V2)
          = W1 ++ (d, L2) :: W2 := by
  intro V1
  induction V1 with
  | nil =>
    intro V2
    cases hc : strLtB d y.1 with
    | true =>
      refine ⟨[], insertSorted (fun a b => strLtB a.1 b.1) y V2, ?_, ?_⟩ <;>
        simp [insertSorted, hc]
    | false =>
      refine ⟨[y], V2, ?_, ?_⟩ <;> simp [insertSorted, hc]
  | cons v V1x ih =>
    intro V2
    obtain ⟨W1, W2, h1, h2⟩ := ih V2
    cases hc : strLtB v.1 y.1 with
    | true =>
      refine ⟨v :: W1, W2, ?_, ?_⟩ <;> simp [insertSorted, hc, h1, h2]
    | false =>
      refine ⟨y :: v :: V1x, V2, ?_, ?_⟩ <;> simp [insertSorted, hc]

/-- Inserting the two versions of the changed pair into the same sorted
list lands them at the same position. -/
theorem insertSorted_payload (d : String) (L L2 : List String) :
    ∀ S : List (String × List String),
      ∃ W1 W2 : List (String × List String),
        insertSorted (fun a b => strLtB a.1 b.1) (d, L) S = W1 ++ (d, L) :: W2 ∧
        insertSorted (fun a b => strLtB a.1 b.1) (d, L2) S = W1 ++ (d, L2) :: W2 := by
  intro S
  induction S with
  | nil => exact ⟨[], [], rfl, rfl⟩
  | cons a Sx ih =>
    obtain ⟨W1, W2, h1, h2⟩ := ih
    cases hc : strLtB a.1 d with
    | true => refine ⟨a :: W1, W2, ?_, ?_⟩ <;> simp [insertSorted, hc, h1, h2]
    | false => refine ⟨[], a :: Sx, ?_, ?_⟩ <;> simp [insertSorted, hc]

/-- The Python `sorted(...)` of the walk, applied to two subdirectory
rows that differ only in the line list of one entry, produces outputs
that differ only in the line list of that entry, at the same position. -/
theorem stableSortBy_payload (d : String) (L L2 : List String) :
    ∀ A B : List (String × List String),
      ∃ V1 V2 : List (String × List String),
        stableSortBy (fun a b => strLtB a.1 b.1) (A ++ (d, L) :: B)
          = V1 ++ (d, L) :: V2 ∧
        stableSortBy (fun a b => strLtB a.1 b.1) (A ++ (d, L2) :: B)
          = V1 ++ (d, L2) :: V2 := by
  intro A
  induction A with
  | nil =>
    intro B
    rw [List.nil_append, List.nil_append, stableSortBy, stableSortBy]
    exact insertSorted_payload d L L2 _
  | cons a Ax ih =>
    intro B
    obtain ⟨V1, V2, h1, h2⟩ := ih B
    rw [List.cons_append, stableSortBy, List.cons_append, stableSortBy, h1, h2]
    exact insertSorted_keyed_rel d L L2 a V1 V2

/- ───────────── one directory of the walk, one file restatted ───────────── -/

theorem first_occ_split {α : Type} [DecidableEq α] {a : α} :
    ∀ {l : List α}, a ∈ l → ∃ l1 l2, l = l1 ++ a :: l2 ∧ a ∉ l1 := by
  intro l
  induction l with
  | nil => intro h; cases h
  | cons b bs ih =>
    intro h
    by_cases hb : a = b
    · exact ⟨[], bs, by simp [hb], by simp⟩
    · obtain ⟨l1, l2, he, hn⟩ := ih (List.mem_of_ne_of_mem hb h)
      refine ⟨b :: l1, l2, by simp [he], ?_⟩
      simp only [List.mem_cons]
      push_neg
      exact ⟨hb, hn⟩

/-- The stat update of one file keeps every file name. -/
theorem statUpdate_name (fname : String) (ns nm : Nat) (fi : FileInfo) :
    (if fi.name == fname then { fi with size := ns, mtime := nm } else fi).name
      = fi.name := by
  by_cases h : fi.name == fname <;> simp [h]

theorem findFile_statUpdate (files : List FileInfo) (fname n : String) (ns nm : Nat) :
    findFile (files.map (fun fi =>
        if fi.name == fname then { fi with size := ns, mtime := nm } else fi)) n
      = (findFile files n).map (fun fi =>
          if fi.name == fname then { fi with size := ns, mtime := nm } else fi) := by
  rw [findFile, findFile, List.find?_map]
  have hfun : ((fun (fi : FileInfo) => fi.name == n) ∘ fun (fi : FileInfo) =>
      if fi.name == fname then { fi with size := ns, mtime := nm } else fi)
        = (fun (fi : FileInfo) => fi.name == n) := by
    funext fi
    simp only [Function.comp_apply, statUpdate_name]
  rw [hfun]

theorem findFile_name {files : List FileInfo} {n : String} {fi : FileInfo}
    (h : findFile files n = some fi) : fi.name = n := by
  have := List.find?_some h
  simpa using this

theorem hashLine_data (rel : List String) (fi : FileInfo) :
    hashLine rel fi
      = ⟨(relRootStr rel ++ "/" ++ fi.name ++ "|").data
          ++ (natStr fi.size).data ++ '|' :: (natStr fi.mtime).data⟩ := by
  apply String.ext
  simp [hashLine]

/-- Splitting the line list of one directory at the restatted file: the
lines before it are unchanged (they belong to other, earlier-sorted
names), its own line carries the new size and mtime, and the updated
directory yields the same decomposition shape. -/
theorem dirLines_split (rel : List String) (files : List FileInfo)
    (fname : String) (s m ns nm : Nat)
    (hstat : (findFile files fname).map (fun fi => (fi.size, fi.mtime)) = some (s, m))
    (hdot : strIsPfx "." fname = false) :
    ∃ P R R2 : List String,
      dirLines rel files
        = P ++ (⟨(relRootStr rel ++ "/" ++ fname ++ "|").data
            ++ (natStr s).data ++ '|' :: (natStr m).data⟩ : String) :: R ∧
      dirLines rel (files.map (fun fi =>
          if fi.name == fname then { fi with size := ns, mtime := nm } else fi))
        = P ++ (⟨(relRootStr rel ++ "/" ++ fname ++ "|").data
            ++ (natStr ns).data ++ '|' :: (natStr nm).data⟩ : String) :: R2 := by
  obtain ⟨fi, hfind, hpair⟩ := Option.map_eq_some'.mp hstat
  rw [Prod.mk.injEq] at hpair
  obtain ⟨hsz, hmt⟩ := hpair
  have hname : fi.name = fname := findFile_name hfind
  have hmem : fname ∈ files.map (fun fi => fi.name) :=
    List.mem_map.mpr ⟨fi, List.mem_of_find?_eq_some hfind, hname⟩
  have hmemf : fname ∈ (files.map (fun fi => fi.name)).filter
      (fun n => !(strIsPfx "." n)) :=
    List.mem_filter.mpr ⟨hmem, by rw [hdot]; rfl⟩
  obtain ⟨n1, n2, hsplit, hnot⟩ := first_occ_split (mem_stableSortBy.mpr hmemf)
  have hnames : (files.map (fun fi =>
      if fi.name == fname then { fi with size := ns, mtime := nm } else fi)).map
        (fun fi => fi.name) = files.map (fun fi => fi.name) := by
    rw [List.map_map]
    exact List.map_congr_left (fun fi _ => statUpdate_name fname ns nm fi)
  have hufi : (if fi.name == fname then { fi with size := ns, mtime := nm } else fi)
      = { fi with size := ns, mtime := nm } := by
    rw [if_pos (by rw [hname]; exact beq_self_eq_true fname)]
  have hF : (findFile files fname).map (hashLine rel) = some (hashLine rel fi) := by
    rw [hfind]; rfl
  have hF2 : (findFile (files.map (fun fi =>
        if fi.name == fname then { fi with size := ns, mtime := nm } else fi))
          fname).map (hashLine rel)
      = some (hashLine rel { fi with size := ns, mtime := nm }) := by
    rw [findFile_statUpdate, hfind]
    exact congrArg (fun z => some (hashLine rel z)) hufi
  have hcongr : n1.filterMap (fun n => (findFile (files.map (fun fi =>
        if fi.name == fname then { fi with size := ns, mtime := nm } else fi))
          n).map (hashLine rel))
      = n1.filterMap (fun n => (findFile files n).map (hashLine rel)) := by
    apply List.filterMap_congr
    intro n hn
    rw [findFile_statUpdate]
    cases hg : findFile files n with
    | none => rfl
    | some g =>
      have hgname : g.name = n := findFile_name hg
      have hne : n ≠ fname := fun he => hnot (he ▸ hn)
      have hug : (if g.name == fname then { g with size := ns, mtime := nm } else g) = g :=
        if_neg (by rw [hgname]; exact fun hb => hne (eq_of_beq hb))
      exact congrArg (fun z => some (hashLine rel z)) hug
  have hline1 : hashLine rel fi
      = (⟨(relRootStr rel ++ "/" ++ fname ++ "|").data
          ++ (natStr s).data ++ '|' :: (natStr m).data⟩ : String) := by
    rw [hashLine_data, hname, hsz, hmt]
  have hline2 : hashLine rel { fi with size := ns, mtime := nm }
      = (⟨(relRootStr rel ++ "/" ++ fname ++ "|").data
          ++ (natStr ns).data ++ '|' :: (natStr nm).data⟩ : String) := by
    rw [hashLine_data]
    exact congrArg _ (by rw [hname])
  refine ⟨n1.filterMap (fun n => (findFile files n).map (hashLine rel)),
          n2.filterMap (fun n => (findFile files n).map (hashLine rel)),
          n2.filterMap (fun n => (findFile (files.map (fun fi =>
            if fi.name == fname then { fi with size := ns, mtime := nm } else fi))
              n).map (hashLine rel)), ?_, ?_⟩
  · rw [dirLines, hsplit, List.filterMap_append]
    simp only [List.filterMap_cons, hF, hline1]
  · rw [dirLines, hnames, hsplit, List.filterMap_append]
    simp only [List.filterMap_cons, hF2, hline2, hcongr]

/-- Navigating one path segment: the walk row list splits at the first
subdirectory carrying the segment name, the rows around it are untouched
by the stat update, and the stat lookup continues inside that subtree. -/
theorem walkSubsLines_split (rel : List String) (d : String) (drest : List String)
    (fname : String) (s m ns nm : Nat) (hkeep : (IGNORE_FOLDERS.contains d || strIsPfx "." d) = false) :
    ∀ subs : SubDirs,
      lookupFileStatSubs d drest fname subs = some (s, m) →
      ∃ A t0 B,
        walkSubsLines rel subs = A ++ (d, walkLines (rel ++ [d]) t0) :: B ∧
        walkSubsLines rel (setFileStatSubs d drest fname ns nm subs)
          = A ++ (d, walkLines (rel ++ [d]) (setFileStat drest fname ns nm t0)) :: B ∧
        lookupFileStat drest fname t0 = some (s, m) := by
  intro subs
  induction subs using subDirs_induction with
  | hnil => intro h; exact absurd h (by rw [lookupFileStatSubs]; exact fun h => by cases h)
  | hcons n t rest ih =>
    intro h
    rw [lookupFileStatSubs] at h
    by_cases hn : n == d
    · rw [if_pos hn] at h
      have hnd : n = d := eq_of_beq hn
      subst hnd
      refine ⟨[], t, walkSubsLines rel rest, ?_, ?_, h⟩
      · rw [walkSubsLines, hkeep]
        rfl
      · rw [setFileStatSubs, if_pos hn, walkSubsLines, hkeep]
        rfl
    · rw [if_neg hn] at h
      obtain ⟨A, t0, B, h1, h2, h3⟩ := ih h
      refine ⟨(if IGNORE_FOLDERS.contains n || strIsPfx "." n then []
               else [(n, walkLines (rel ++ [n]) t)]) ++ A, t0, B, ?_, ?_, h3⟩
      · rw [walkSubsLines, h1, List.append_assoc]
      · rw [setFileStatSubs, if_neg hn, walkSubsLines, h2, List.append_assoc]

/-- Restatting one reachable file changes exactly one line of the walk
output: the collected lines split around it identically on both sides,
with the old and new stat rendered at the same position. -/
theorem walkLines_split (fname : String) (s m ns nm : Nat)
    (hdot : strIsPfx "." fname = false) :
    ∀ (dpath : List String) (t : DirTree) (rel : List String),
      lookupFileStat dpath fname t = some (s, m) →
      (∀ d ∈ dpath, (IGNORE_FOLDERS.contains d || strIsPfx "." d) = false) →
      ∃ (P R R2 : List String) (pre : List Char),
        walkLines rel t
          = P ++ (⟨pre ++ (natStr s).data ++ '|' :: (natStr m).data⟩ : String) :: R ∧
        walkLines rel (setFileStat dpath fname ns nm t)
          = P ++ (⟨pre ++ (natStr ns).data ++ '|' :: (natStr nm).data⟩ : String) :: R2 := by
  intro dpath
  induction dpath with
  | nil =>
    intro t rel hstat hkeep
    cases t with
    | node files subs =>
      rw [lookupFileStat] at hstat
      obtain ⟨P, R, R2, h1, h2⟩ := dirLines_split rel files fname s m ns nm hstat hdot
      refine ⟨P,
        R ++ (stableSortBy (fun a b => strLtB a.1 b.1)
          (walkSubsLines rel subs)).flatMap Prod.snd,
        R2 ++ (stableSortBy (fun a b => strLtB a.1 b.1)
          (walkSubsLines rel subs)).flatMap Prod.snd,
        (relRootStr rel ++ "/" ++ fname ++ "|").data, ?_, ?_⟩
      · rw [walkLines, h1]
        simp [List.append_assoc]
      · rw [setFileStat, walkLines, h2]
        simp [List.append_assoc]
  | cons d drest ih =>
    intro t rel hstat hkeep
    cases t with
    | node files subs =>
      rw [lookupFileStat] at hstat
      have hkd : (IGNORE_FOLDERS.contains d || strIsPfx "." d) = false :=
        hkeep d (List.mem_cons_self _ _)
      obtain ⟨A, t0, B, hw1, hw2, hl⟩ :=
        walkSubsLines_split rel d drest fname s m ns nm hkd subs hstat
      obtain ⟨P0, R0, R02, pre0, hp1, hp2⟩ :=
        ih t0 (rel ++ [d]) hl (fun x hx => hkeep x (List.mem_cons_of_mem _ hx))
      obtain ⟨V1, V2, hs1, hs2⟩ := stableSortBy_payload d (walkLines (rel ++ [d]) t0)
        (walkLines (rel ++ [d]) (setFileStat drest fname ns nm t0)) A B
      refine ⟨dirLines rel files ++ V1.flatMap Prod.snd ++ P0,
              R0 ++ V2.flatMap Prod.snd,
              R02 ++ V2.flatMap Prod.snd, pre0, ?_, ?_⟩
      · rw [walkLines, hw1, hs1, hp1]
        simp [List.append_assoc]
      · rw [setFileStat, walkLines, hw2, hs2, hp2]
        simp [List.append_assoc]

/-- Claim C9, amended.  The structure fingerprint is a deterministic
function of the collected `(relative path, size, mtime)` line data: trees
whose walks collect the same lines hash identically.  Changing any single
reachable file's size or modification time (a file whose name is not
dot-prefixed, in a directory whose path avoids ignored and dot-prefixed
folders) changes the hashed data string — but only the HASH INPUT is
guaranteed to change: by `C9_counterexample` the 128-bit digest itself
must collide for some pair of stats, so the spec's "changes the
fingerprint" does not hold of the digest. -/
theorem C9_fingerprint :
    (∀ t1 t2 : DirTree, walkLines [] t1 = walkLines [] t2 →
        generate_structure_hash t1 = generate_structure_hash t2) ∧
    (∀ (t : DirTree) (dpath : List String) (fname : String) (s m ns nm : Nat),
        lookupFileStat dpath fname t = some (s, m) →
        strIsPfx "." fname = false →
        (∀ d ∈ dpath, (IGNORE_FOLDERS.contains d || strIsPfx "." d) = false) →
        (s, m) ≠ (ns, nm) →
        structureContent (setFileStat dpath fname ns nm t) ≠ structureContent t) := by
  constructor
  · intro t1 t2 h
    rw [generate_structure_hash, generate_structure_hash,
      structureContent, structureContent, h]
  · intro t dpath fname s m ns nm hstat hdot hkeep hne
    obtain ⟨P, R, R2, pre, h1, h2⟩ :=
      walkLines_split fname s m ns nm hdot dpath t [] hstat hkeep
    rw [structureContent, structureContent, h1, h2]
    exact content_ne_of_split P R R2 pre s m ns nm hne

/-- Concrete instance of the amendment: bumping the single file of
`c9tree 0` from stat `(0, 0)` to `(1, 2)` changes the hashed data
string. -/
theorem C9_fingerprint_witness :
    structureContent (setFileStat [] "a" 1 2 (c9tree 0)) ≠ structureContent (c9tree 0) :=
  C9_fingerprint.2 (c9tree 0) [] "a" 0 0 1 2 (by decide) (by decide)
    (by intro d hd; cases hd) (by decide)
